import Mathlib

/-!
Verification of the Synql replicated-database core (`src/synql/crr.py`) against
its natural-language specification.

The development shallowly embeds the shadow-relation state of a replica
(`_synql_context`, `_synql_id`, `_synql_id_undo`, `_synql_log`, `_synql_fklog`,
`_synql_undolog`, `_synql_uniqueness`, `_synql_fk`, `_synql_local`) as lists of
records, the trigger layer (`_synql_log_insert_T`, `_synql_delete_id_T`,
`_synql_log_update_T`), the effective-log views (`_synql_log_effective`,
`_synql_fklog_effective`), and the pull/merge pipeline (`_PULL_EXTERN`, the
five conflict-resolution rules of `_CONFLICT_RESOLUTION`, `_MERGE_END`).
SQL semantics are modelled explicitly: `NULL` comparisons are falsy, `INSERT
OR REPLACE` and `ON CONFLICT DO UPDATE` are keyed upserts, joins are nested
iterations over the row lists.
-/

namespace Synql

/-- A SQLite value stored in a replicated column (column `val any`). -/
inductive SqlVal where
  | null
  | int (i : Int)
  | text (s : String)
  deriving DecidableEq, Repr

/-- SQL `=` comparison: `NULL` compared with anything is not true, values of
distinct types are unequal. -/
def sqlEq : SqlVal → SqlVal → Bool
  | SqlVal.int a, SqlVal.int b => a == b
  | SqlVal.text a, SqlVal.text b => a == b
  | _, _ => false

/-- A labelled timestamp `(ts, peer)`: the globally unique id of an operation
or of a row. -/
structure OpId where
  ts : Int
  peer : Int
  deriving DecidableEq, Repr

/-- A row of `_synql_id`: the identity of a replicated row and its table tag. -/
structure RowIdEntry where
  row : OpId
  tbl : Int
  deriving DecidableEq, Repr

/-- A row of `_synql_log`: column `field` of row `(row_ts, row_peer)` was
assigned `val` by operation `(ts, peer)`. -/
structure LogEntry where
  ts : Int
  peer : Int
  row_ts : Int
  row_peer : Int
  field : Int
  val : SqlVal
  deriving DecidableEq, Repr

/-- A row of `_synql_fklog`: foreign key `field` of row `(row_ts, row_peer)`
was pointed at `foreign_row` (both target columns NULL encoded as `none`). -/
structure FkLogEntry where
  ts : Int
  peer : Int
  row_ts : Int
  row_peer : Int
  field : Int
  foreign_row : Option OpId
  deriving DecidableEq, Repr

/-- A row of `_synql_id_undo` or `_synql_undolog`: undo length `ul` of object
`obj`, last modified by operation `(ts, peer)`. -/
structure UndoEntry where
  obj : OpId
  ul : Int
  ts : Int
  peer : Int
  deriving DecidableEq, Repr

/-- A row of `_synql_fk`: per-foreign-key referential-action metadata.
Action codes: 0 = CASCADE, 1 = RESTRICT, 2 = SET NULL. -/
structure FkSpec where
  field : Int
  on_delete : Int
  on_update : Int
  foreign_index : Int
  deriving DecidableEq, Repr

/-- The replicated shadow state of one replica: `_synql_local` (fields `peer`,
`ts`, plus whether the `_synql_local_clock` trigger is installed), the causal
context and the shadow relations. -/
structure Replica where
  peer : Int
  ts : Int
  physicalClock : Bool
  ctx : List (Int × Int)
  ids : List RowIdEntry
  idUndo : List UndoEntry
  log : List LogEntry
  fklog : List FkLogEntry
  undolog : List UndoEntry
  uniq : List (Int × Int)
  fks : List FkSpec
  deriving DecidableEq, Repr

/-! ### Association-list primitives for `_synql_context` and the undo tables -/

/-- Value of `_synql_context` at `peer` (the table is keyed by `peer`). -/
def ctxLookup (ctx : List (Int × Int)) (p : Int) : Option Int :=
  (ctx.find? (fun c => c.1 == p)).map Prod.snd

/-- SQL `UPDATE _synql_context SET ts = v WHERE peer = p`: only existing rows
are modified. -/
def ctxSet (ctx : List (Int × Int)) (p v : Int) : List (Int × Int) :=
  ctx.map (fun c => if c.1 == p then (c.1, v) else c)

/-- SQL `INSERT OR IGNORE INTO _synql_context SELECT peer, 0 FROM ...`:
append a `(p, 0)` row for every listed peer not present yet. -/
def ctxAddMissing : List (Int × Int) → List Int → List (Int × Int)
  | ctx, [] => ctx
  | ctx, p :: ps =>
      ctxAddMissing (if ctxLookup ctx p == none then ctx ++ [(p, 0)] else ctx) ps

/-- Aggregate `max(ctx.ts)` over the table (context timestamps satisfy the
schema constraint `CHECK (ts >= 0)`, so 0 is a neutral base). -/
def ctxMaxVal (ctx : List (Int × Int)) : Int :=
  ctx.foldl (fun a c => max a c.2) 0

/-- Join predicate `x.ts > ctx.ts AND x.peer = ctx.peer` used by the
log imports: true iff the context has a row for `p` with a smaller
timestamp. -/
def ctxNewer (ctx : List (Int × Int)) (ts p : Int) : Bool :=
  ctx.any (fun c => c.1 == p && decide (c.2 < ts))

/-- Lookup in an undo table by its primary key (the object id). -/
def undoLookup (t : List UndoEntry) (o : OpId) : Option UndoEntry :=
  t.find? (fun e => e.obj == o)

/-- `INSERT OR REPLACE` into an undo table (keyed on the object id). -/
def undoReplace (t : List UndoEntry) (e : UndoEntry) : List UndoEntry :=
  if t.any (fun x => x.obj == e.obj) then
    t.map (fun x => if x.obj == e.obj then e else x)
  else t ++ [e]

/-- The import upsert of `_PULL_EXTERN`:
`ON CONFLICT DO UPDATE SET ul = excluded.ul, ts = excluded.ts, peer =
excluded.peer WHERE ul < excluded.ul` — an ul-max merge. -/
def undoMaxMerge (t : List UndoEntry) (e : UndoEntry) : List UndoEntry :=
  match undoLookup t e.obj with
  | some p => if p.ul < e.ul then undoReplace t e else t
  | none => t ++ [e]

/-- The upsert of trigger `_synql_delete_id_T`: insert `ul = 1`,
`ON CONFLICT DO UPDATE SET ul = ul + 1, ts = excluded.ts, peer =
excluded.peer`. -/
def undoIncrement (t : List UndoEntry) (o : OpId) (ts peer : Int) : List UndoEntry :=
  match undoLookup t o with
  | some p => undoReplace t { obj := o, ul := p.ul + 1, ts := ts, peer := peer }
  | none => t ++ [{ obj := o, ul := 1, ts := ts, peer := peer }]

/-! ### The effective-log views -/

/-- Column `ul` of view `_synql_log_extra` for a log entry: the undo length
recorded in `_synql_undolog` under the entry's operation id
(`ifnull(undo.ul, 0)`). -/
def opUl (r : Replica) (ts peer : Int) : Int :=
  match undoLookup r.undolog ⟨ts, peer⟩ with
  | some u => u.ul
  | none => 0

/-- Column `row_ul` of the extra views for a row: the undo length recorded in
`_synql_id_undo` under the row id (`ifnull(tbl_undo.ul, 0)`). -/
def rowUl (r : Replica) (row : OpId) : Int :=
  match undoLookup r.idUndo row with
  | some u => u.ul
  | none => 0

/-- Filter of view `_synql_log_effective`: the entry's own undo length is even
and no entry on the same `(row, field)` with even undo length has a greater
`(ts, peer)`.  Note that the view does not restrict by `row_ul`. -/
def isLatestVisible (r : Replica) (e : LogEntry) : Bool :=
  opUl r e.ts e.peer % 2 == 0 &&
    !(r.log.any (fun s =>
      s.row_ts == e.row_ts && s.row_peer == e.row_peer && s.field == e.field &&
      (decide (s.ts > e.ts) || (s.ts == e.ts && decide (s.peer > e.peer))) &&
      opUl r s.ts s.peer % 2 == 0))

/-- View `_synql_log_effective`. -/
def logEffective (r : Replica) : List LogEntry :=
  r.log.filter (isLatestVisible r)

/-- Filter of view `_synql_fklog_effective` (same rule as the column log). -/
def isLatestVisibleFk (r : Replica) (e : FkLogEntry) : Bool :=
  opUl r e.ts e.peer % 2 == 0 &&
    !(r.fklog.any (fun s =>
      s.row_ts == e.row_ts && s.row_peer == e.row_peer && s.field == e.field &&
      (decide (s.ts > e.ts) || (s.ts == e.ts && decide (s.peer > e.peer))) &&
      opUl r s.ts s.peer % 2 == 0))

/-- View `_synql_fklog_effective`. -/
def fklogEffective (r : Replica) : List FkLogEntry :=
  r.fklog.filter (isLatestVisibleFk r)

/-- Metadata joined by `LEFT JOIN _synql_fk USING(field)`. -/
def fkMeta (r : Replica) (field : Int) : Option FkSpec :=
  r.fks.find? (fun f => f.field == field)

/-- Column `on_delete` of the joined metadata (NULL when the field has no
`_synql_fk` row). -/
def fkOnDelete (r : Replica) (field : Int) : Option Int :=
  (fkMeta r field).map FkSpec.on_delete

/-- Column `on_update` of the joined metadata. -/
def fkOnUpdate (r : Replica) (field : Int) : Option Int :=
  (fkMeta r field).map FkSpec.on_update

/-- Column `foreign_index` of the joined metadata. -/
def fkForeignIndex (r : Replica) (field : Int) : Option Int :=
  (fkMeta r field).map FkSpec.foreign_index

/-! ### Clock -/

/-- The wall-clock expression of trigger `_synql_local_clock`:
`CAST(((julianday('now') - julianday('1970-01-01')) * 86400.0 * 1000000.0) AS
int)`, i.e. the number of seconds since the Unix epoch multiplied by 10^6. -/
def wallClockFloor (secondsSinceEpoch : Int) : Int :=
  secondsSinceEpoch * 1000000

/-- Nanoseconds since the Unix epoch, the unit named by the in-code comment of
`_synql_local_clock` and by the specification. -/
def nanosSinceEpoch (secondsSinceEpoch : Int) : Int :=
  secondsSinceEpoch * 1000000000

/-- One clock bump: `UPDATE _synql_local SET ts = ts + 1`, on which the
`_synql_local_clock` trigger (installed iff `physical_clock` is set) raises
the new value to the wall-clock floor `now`. -/
def bumpTs (physical : Bool) (ts now : Int) : Int :=
  if physical then max (ts + 1) now else ts + 1

/-- Clock bump of a replica; `now` is the value of the wall-clock expression
of `_synql_local_clock` at that moment. -/
def Replica.bump (r : Replica) (now : Int) : Int :=
  bumpTs r.physicalClock r.ts now

/-! ### Trigger layer

The per-table rowmap `_synql_id_T` is carried separately as an association
list `rowid -> row id`; the trigger bodies below are transcribed from
`_synql_triggers`. -/

/-- Body of trigger `_synql_delete_id_T` (fires after a `_synql_id_T` row is
deleted, outside merges): bump the clock, advance `_synql_context` for the
local peer, and upsert the row's undo counter with `ul = 1` or `ul = ul + 1`. -/
def deleteIdTrigger (r : Replica) (now : Int) (oldRow : OpId) : Replica :=
  let ts' := r.bump now
  { r with
    ts := ts'
    ctx := ctxSet r.ctx r.peer ts'
    idUndo := undoIncrement r.idUndo oldRow ts' r.peer }

/-- Trigger `_synql_delete_T` followed by `_synql_delete_id_T`: a user DELETE
removes the rowmap entry, which (outside merges) marks the row id undone. -/
def deleteTrigger (r : Replica) (rm : List (Int × OpId)) (now rowid : Int) :
    Replica × List (Int × OpId) :=
  match rm.find? (fun e => e.1 == rowid) with
  | some m => (deleteIdTrigger r now m.2, rm.filter (fun e => e.1 != rowid))
  | none => (r, rm)

/-- Body of trigger `_synql_log_insert_T` (fires after a user INSERT, outside
merges): pre-emptively delete any rowmap entry with the new row handle
(`INSERT OR REPLACE` support, firing `_synql_delete_id_T` when one exists),
bump the clock, advance `_synql_context`, then record the fresh mapping, the
fresh `_synql_id` row, and one `_synql_log` / `_synql_fklog` entry per
replicated column / foreign key, all dated `(local.ts, local.peer)` with
`row_ts = local.ts` and `row_peer = local.peer`. -/
def insertTrigger (r : Replica) (rm : List (Int × OpId)) (tbl now rowid : Int)
    (cols : List (Int × SqlVal)) (fks : List (Int × Option OpId)) :
    Replica × List (Int × OpId) :=
  let step1 : Replica × List (Int × OpId) :=
    match rm.find? (fun e => e.1 == rowid) with
    | some m => (deleteIdTrigger r now m.2, rm.filter (fun e => e.1 != rowid))
    | none => (r, rm)
  let r1 := step1.1
  let ts2 := r1.bump now
  let r2 := { r1 with ts := ts2, ctx := ctxSet r1.ctx r1.peer ts2 }
  ({ r2 with
      ids := r2.ids ++ [⟨⟨ts2, r2.peer⟩, tbl⟩]
      log := r2.log ++ cols.map (fun c => ⟨ts2, r2.peer, ts2, r2.peer, c.1, c.2⟩)
      fklog := r2.fklog ++ fks.map (fun f => ⟨ts2, r2.peer, ts2, r2.peer, f.1, f.2⟩) },
    step1.2 ++ [(rowid, ⟨ts2, r2.peer⟩)])

/-- Body of trigger `_synql_log_update_T` (fires after a user UPDATE of a
tracked column, outside merges): bump the clock, advance `_synql_context`,
and append a `_synql_log` entry per changed replicated column and a
`_synql_fklog` entry per changed foreign key, dated `(local.ts, local.peer)`
on the row id found through the rowmap.  `changedCols` and `changedFks` stand
for the rows produced by the trigger's SELECTs (their filters compare OLD/NEW
values of the user table, which lies outside the shadow state). -/
def updateTrigger (r : Replica) (rm : List (Int × OpId)) (now rowid : Int)
    (changedCols : List (Int × SqlVal)) (changedFks : List (Int × Option OpId)) :
    Replica :=
  let ts' := r.bump now
  let r1 := { r with ts := ts', ctx := ctxSet r.ctx r.peer ts' }
  match rm.find? (fun e => e.1 == rowid) with
  | some m =>
      { r1 with
        log := r1.log ++ changedCols.map (fun c => ⟨ts', r.peer, m.2.ts, m.2.peer, c.1, c.2⟩)
        fklog := r1.fklog ++ changedFks.map (fun f => ⟨ts', r.peer, m.2.ts, m.2.peer, f.1, f.2⟩) }
  | none => r1

/-! ### Peer allocation and init -/

/-- `_allocate_id` without an explicit id: `UPDATE _synql_local SET peer =
(random() >> 16)`.  SQLite `random()` returns a signed 64-bit integer and
`>>` is an arithmetic right shift, i.e. floor division by 2^16 (Lean's `/`
on `Int` rounds toward negative infinity for this positive divisor). -/
def allocatedPeer (rand : Int) : Int :=
  rand / 65536

/-- Referential actions as parsed from the schema (`sql.OnUpdateDelete`);
`none` stands for an absent action clause. -/
inductive FkAction where
  | cascade
  | restrict
  | setNull
  | setDefault
  | noAction
  deriving DecidableEq, Repr

/-- `_normalize_fk_action`: `SET DEFAULT` is rejected, `NO ACTION` and an
absent clause become `CASCADE` or `RESTRICT` according to
`no_action_is_cascade`. -/
def normalizeFkAction (action : Option FkAction) (noActionIsCascade : Bool) :
    Except String FkAction :=
  match action with
  | some FkAction.setDefault =>
      Except.error "Synql does not support ON DELETE/UPDATE SET DEFAULT"
  | none =>
      Except.ok (if noActionIsCascade then FkAction.cascade else FkAction.restrict)
  | some FkAction.noAction =>
      Except.ok (if noActionIsCascade then FkAction.cascade else FkAction.restrict)
  | some a => Except.ok a

/-- A foreign key of the user schema, as far as `init` consults it. -/
structure SchemaFk where
  onDelete : Option FkAction
  onUpdate : Option FkAction
  deriving DecidableEq, Repr

/-- A table of the user schema, as far as `init` consults it. -/
structure SchemaTable where
  fks : List SchemaFk
  deriving DecidableEq, Repr

/-- `_synql_triggers` normalizes both actions of every foreign key of every
table while generating the trigger DDL; the first `SET DEFAULT` raises. -/
def synqlTriggers (tables : List SchemaTable) (noActionIsCascade : Bool) :
    Except String Unit :=
  if tables.any (fun t => t.fks.any (fun f =>
      (normalizeFkAction f.onDelete noActionIsCascade).isOk == false ||
      (normalizeFkAction f.onUpdate noActionIsCascade).isOk == false)) then
    Except.error "Synql does not support ON DELETE/UPDATE SET DEFAULT"
  else Except.ok ()

/-- Observable database state during `init`: which of the three stages of
`init` have been executed (each `executescript` call commits its DDL). -/
structure InitDb where
  shadowInstalled : Bool
  triggersInstalled : Bool
  peerAllocated : Bool
  deriving DecidableEq, Repr

/-- `init`: a first `executescript` installs (and commits) the shadow
relations, a second installs the generated triggers — but its argument
`_synql_triggers(tables, conf)` is evaluated first and raises on
`SET DEFAULT`, after the shadow DDL has already been executed — and finally
`_allocate_id` runs.  An error carries the database state at the raise. -/
def init (db : InitDb) (tables : List SchemaTable) (noActionIsCascade : Bool) :
    Except InitDb InitDb :=
  let db1 := { db with shadowInstalled := true }
  match synqlTriggers tables noActionIsCascade with
  | Except.error _ => Except.error db1
  | Except.ok _ =>
      Except.ok { db1 with triggersInstalled := true, peerAllocated := true }

/-! ### Conflict resolution (`_CONFLICT_RESOLUTION`)

Each rule is an `INSERT ... SELECT`; the SELECT is evaluated against the
state the previous statements left, and its upserts are then folded in. -/

/-- Rule A (`ON UPDATE RESTRICT`): rows produced by its SELECT, one per
satisfying join tuple over `_synql_log_extra`, `_synql_uniqueness`,
`_synql_fklog_effective` and the two contexts. -/
def ruleAUndos (r : Replica) (ectx : List (Int × Int)) : List UndoEntry :=
  r.log.flatMap (fun lg =>
    (fklogEffective r).flatMap (fun fk =>
      r.uniq.flatMap (fun uq =>
        r.ctx.flatMap (fun c =>
          ectx.filterMap (fun ec =>
            if lg.field == uq.1 &&
               (decide (lg.ts > fk.ts) || (lg.ts == fk.ts && lg.peer == fk.peer) ||
                (decide (lg.ts > c.2) && lg.peer == c.1 &&
                 decide (fk.ts > ec.2) && fk.peer == ec.1) ||
                (decide (lg.ts > ec.2) && lg.peer == ec.1 &&
                 decide (fk.ts > c.2) && fk.peer == c.1)) &&
               fk.foreign_row == some ⟨lg.row_ts, lg.row_peer⟩ &&
               fkForeignIndex r fk.field == some uq.2 &&
               fkOnUpdate r fk.field == some 1 &&
               opUl r lg.ts lg.peer % 2 == 0 then
              some ⟨⟨lg.ts, lg.peer⟩, opUl r lg.ts lg.peer + 1, r.ts, r.peer⟩
            else none)))))

/-- Rule A applied: `INSERT OR REPLACE INTO _synql_undolog`. -/
def ruleA (r : Replica) (ectx : List (Int × Int)) : Replica :=
  { r with undolog := (ruleAUndos r ectx).foldl undoReplace r.undolog }

/-- UNION-style insertion for recursive CTEs: add an element unless present. -/
def insertNew (s : List OpId) (x : OpId) : List OpId :=
  if s.contains x then s else s ++ [x]

/-- Bounded iteration replacing the SQL recursive-CTE fix point. -/
def iterate (f : List OpId → List OpId) : Nat → List OpId → List OpId
  | 0, s => s
  | n + 1, s => iterate f n (f s)

/-- Base case of the `_synql_restrict_refs` CTE of rule B: the targets of
effective foreign keys with `on_delete = RESTRICT` on a visible row. -/
def ruleBBase (r : Replica) : List OpId :=
  (fklogEffective r).filterMap (fun fk =>
    if fkOnDelete r fk.field == some 1 && rowUl r ⟨fk.row_ts, fk.row_peer⟩ % 2 == 0 then
      fk.foreign_row
    else none)

/-- Recursive case of `_synql_restrict_refs`: follow targets of `CASCADE`
edges whose source row is already in the set. -/
def ruleBStep (r : Replica) (s : List OpId) : List OpId :=
  ((fklogEffective r).filterMap (fun tgt =>
    if s.contains ⟨tgt.row_ts, tgt.row_peer⟩ && fkOnDelete r tgt.field == some 0 then
      tgt.foreign_row
    else none)).foldl insertNew s

/-- The full `_synql_restrict_refs` set (the CTE reaches its fix point within
one step per foreign-key log entry). -/
def ruleBClosure (r : Replica) : List OpId :=
  iterate (ruleBStep r) (r.fklog.length + 1) ((ruleBBase r).foldl insertNew [])

/-- Rule B (`ON DELETE RESTRICT`): every row of the closure whose undo
counter is odd is redone (`INSERT OR REPLACE` with `ul + 1`). -/
def ruleB (r : Replica) : Replica :=
  let refs := ruleBClosure r
  let undos := r.idUndo.filterMap (fun u =>
    if refs.contains u.obj && u.ul % 2 == 1 then
      some ⟨u.obj, u.ul + 1, r.ts, r.peer⟩
    else none)
  { r with idUndo := undos.foldl undoReplace r.idUndo }

/-- Rule C (`ON UPDATE SET NULL`): the `(row, field)` pairs produced by its
SELECT, one per satisfying join tuple (the SQL has no DISTINCT, so the
context cross join multiplies rows). -/
def ruleCCandidates (r : Replica) (ectx : List (Int × Int)) : List (OpId × Int) :=
  (logEffective r).flatMap (fun lg =>
    (fklogEffective r).flatMap (fun fk =>
      r.uniq.flatMap (fun uq =>
        r.ctx.flatMap (fun c =>
          ectx.filterMap (fun ec =>
            if lg.field == uq.1 &&
               ((decide (lg.ts > c.2) && lg.peer == c.1 &&
                 decide (fk.ts > ec.2) && fk.peer == ec.1) ||
                (decide (lg.ts > ec.2) && lg.peer == ec.1 &&
                 decide (fk.ts > c.2) && fk.peer == c.1)) &&
               fk.foreign_row == some ⟨lg.row_ts, lg.row_peer⟩ &&
               fkForeignIndex r fk.field == some uq.2 &&
               fkOnUpdate r fk.field == some 2 then
              some (⟨fk.row_ts, fk.row_peer⟩, fk.field)
            else none)))))

/-- Rule C applied: each candidate row passes through the
`_synql_fklog_effective_insert` INSTEAD OF trigger, which bumps the clock and
appends a `_synql_fklog` entry with a NULL target. -/
def ruleC (r : Replica) (ectx : List (Int × Int)) (now : Int) : Replica :=
  (ruleCCandidates r ectx).foldl
    (fun acc c =>
      let ts' := acc.bump now
      { acc with ts := ts', fklog := acc.fklog ++ [⟨ts', acc.peer, c.1.ts, c.1.peer, c.2, none⟩] })
    r

/-- A row of the `_synql_unified_log_effective` CTE of rule D. -/
structure URec where
  ts : Int
  peer : Int
  row_ts : Int
  row_peer : Int
  field : Int
  val : Option SqlVal
  frow : Option OpId
  row_ul : Int
  deriving DecidableEq, Repr

/-- The `_synql_unified_log_effective` CTE: the effective column log with
NULL targets, unioned with the effective foreign-key log with NULL values. -/
def unifiedLogEffective (r : Replica) : List URec :=
  (logEffective r).map (fun e =>
    ⟨e.ts, e.peer, e.row_ts, e.row_peer, e.field, some e.val, none,
      rowUl r ⟨e.row_ts, e.row_peer⟩⟩) ++
  (fklogEffective r).map (fun e =>
    ⟨e.ts, e.peer, e.row_ts, e.row_peer, e.field, none, e.foreign_row,
      rowUl r ⟨e.row_ts, e.row_peer⟩⟩)

/-- SQL equality on the nullable `val` column (NULL is never equal). -/
def uvalEq : Option SqlVal → Option SqlVal → Bool
  | some a, some b => sqlEq a b
  | _, _ => false

/-- SQL equality on the nullable target columns (NULL is never equal). -/
def ufrowEq : Option OpId → Option OpId → Bool
  | some a, some b => a == b
  | _, _ => false

/-- Join condition of rule D between two unified log entries:
same field and equal value or equal target. -/
def urecMatches (a b : URec) : Bool :=
  a.field == b.field && (uvalEq a.val b.val || ufrowEq a.frow b.frow)

/-- Distinct fields of a uniqueness index
(`SELECT count(DISTINCT field) FROM _synql_uniqueness WHERE tbl_index = i`). -/
def uniqFields (r : Replica) (idx : Int) : List Int :=
  (r.uniq.filterMap (fun u => if u.2 == idx then some u.1 else none)).dedup

/-- The HAVING clause of rule D for the group of rows `rowG` (the greater row)
and `rowS` under index `idx`: every field of the index is matched by some
pair of unified entries of the two rows. -/
def ruleDGroupOk (r : Replica) (u : List URec) (rowG rowS : OpId) (idx : Int) : Bool :=
  let flds := uniqFields r idx
  decide ((flds.filter (fun f =>
    u.any (fun lg =>
      lg.row_ts == rowG.ts && lg.row_peer == rowG.peer && lg.field == f &&
        u.any (fun slf =>
          slf.row_ts == rowS.ts && slf.row_peer == rowS.peer && slf.field == f &&
            urecMatches lg slf)))).length ≥ flds.length)

/-- Rule D (uniqueness resolution): undo entries produced by its SELECT.  The
FROM clause cross joins both contexts, so an empty context yields no rows;
the version-vector concurrency filter is commented out in the source
(`FIXME`), so the rule re-fires on non-concurrent entries. -/
def ruleDUndos (r : Replica) (ectx : List (Int × Int)) : List UndoEntry :=
  if r.ctx.isEmpty || ectx.isEmpty then [] else
  let u := unifiedLogEffective r
  u.flatMap (fun lg =>
    u.flatMap (fun slf =>
      r.uniq.filterMap (fun uq =>
        if uq.1 == lg.field && urecMatches lg slf &&
           (decide (lg.row_ts > slf.row_ts) ||
            (lg.row_ts == slf.row_ts && decide (lg.row_peer > slf.row_peer))) &&
           ruleDGroupOk r u ⟨lg.row_ts, lg.row_peer⟩ ⟨slf.row_ts, slf.row_peer⟩ uq.2 then
          some ⟨⟨lg.row_ts, lg.row_peer⟩, lg.row_ul + 1, r.ts, r.peer⟩
        else none)))

/-- Rule D applied: `INSERT OR REPLACE INTO _synql_id_undo`. -/
def ruleD (r : Replica) (ectx : List (Int × Int)) : Replica :=
  { r with idUndo := (ruleDUndos r ectx).foldl undoReplace r.idUndo }

/-- Base case of the `_synql_dangling_refs` CTE of rule E: visible rows whose
non-SET-NULL foreign key targets a row with an odd undo counter. -/
def ruleEBase (r : Replica) : List OpId :=
  (fklogEffective r).filterMap (fun fk =>
    match fk.foreign_row with
    | some f =>
        match undoLookup r.idUndo f with
        | some u =>
            if (fkOnDelete r fk.field == some 0 || fkOnDelete r fk.field == some 1) &&
               rowUl r ⟨fk.row_ts, fk.row_peer⟩ % 2 == 0 && u.ul % 2 == 1 then
              some ⟨fk.row_ts, fk.row_peer⟩
            else none
        | none => none
    | none => none)

/-- Recursive case of `_synql_dangling_refs`: visible rows referencing a row
already in the set. -/
def ruleEStep (r : Replica) (s : List OpId) : List OpId :=
  ((fklogEffective r).filterMap (fun src =>
    match src.foreign_row with
    | some f =>
        if s.contains f && rowUl r ⟨src.row_ts, src.row_peer⟩ % 2 == 0 then
          some ⟨src.row_ts, src.row_peer⟩
        else none
    | none => none)).foldl insertNew s

/-- Rule E (`ON DELETE CASCADE`): every visible row of the closure is undone. -/
def ruleE (r : Replica) : Replica :=
  let refs := iterate (ruleEStep r) (r.fklog.length + 1) ((ruleEBase r).foldl insertNew [])
  let undos := refs.filterMap (fun row =>
    if rowUl r row % 2 == 0 then some ⟨row, rowUl r row + 1, r.ts, r.peer⟩ else none)
  { r with idUndo := undos.foldl undoReplace r.idUndo }

/-! ### Pull (`_PULL_EXTERN`, conflict resolution, `_MERGE_END`) -/

/-- `_MERGE_END`: raise each context entry to the remote context element-wise,
then set the local peer's entry to `Local.ts` when a `_synql_id_undo`,
`_synql_undolog`, `_synql_log` or `_synql_fklog` row carries the operation id
`(Local.ts, Local.peer)`. -/
def mergeEnd (r : Replica) (ectx : List (Int × Int)) : Replica :=
  let ctx1 := r.ctx.map (fun c =>
    match ctxLookup ectx c.1 with
    | some t => if t > c.2 then (c.1, t) else c
    | none => c)
  let selfWrote :=
    r.idUndo.any (fun e => e.ts == r.ts && e.peer == r.peer) ||
    r.undolog.any (fun e => e.ts == r.ts && e.peer == r.peer) ||
    r.log.any (fun e => e.ts == r.ts && e.peer == r.peer) ||
    r.fklog.any (fun e => e.ts == r.ts && e.peer == r.peer)
  { r with ctx := if selfWrote then ctxSet ctx1 r.peer r.ts else ctx1 }

/-- P0, clock update before the hybrid-clock trigger:
`UPDATE _synql_local SET ts = max(_synql_local.ts, max(ctx.ts)) + 1 FROM
extern._synql_context AS ctx` — a no-op when the remote context is empty
(the UPDATE joins no row). -/
def pullT0 (r remote : Replica) : Int :=
  if remote.ctx.isEmpty then r.ts else max r.ts (ctxMaxVal remote.ctx) + 1

/-- P0 clock value after the `_synql_local_clock` trigger, which fires
exactly when the update was a plain `+1` step. -/
def pullTs1 (r remote : Replica) (now : Int) : Int :=
  if r.physicalClock && pullT0 r remote == r.ts + 1 then max (pullT0 r remote) now
  else pullT0 r remote

/-- Local context after the missing-peer insert of `_PULL_EXTERN`. -/
def pullCtx1 (r remote : Replica) : List (Int × Int) :=
  ctxAddMissing r.ctx (remote.ctx.map Prod.fst)

/-- Extern context after its own missing-peer insert (fed with the already
extended local context). -/
def pullEctx (r remote : Replica) : List (Int × Int) :=
  ctxAddMissing remote.ctx ((pullCtx1 r remote).map Prod.fst)

/-- P0 and P1 of `_PULL_EXTERN`: clock and context reconciliation, then the
remote `_synql_id`, `_synql_log` and `_synql_fklog` rows past the local
context are imported, and the undo tables are merged by ul-max. -/
def pullImport (r remote : Replica) (now : Int) : Replica :=
  { r with
    ts := pullTs1 r remote now
    ctx := pullCtx1 r remote
    ids := r.ids ++ remote.ids.filter (fun i =>
      ctxNewer (pullCtx1 r remote) i.row.ts i.row.peer)
    log := r.log ++ remote.log.filter (fun e =>
      ctxNewer (pullCtx1 r remote) e.ts e.peer)
    fklog := r.fklog ++ remote.fklog.filter (fun e =>
      ctxNewer (pullCtx1 r remote) e.ts e.peer)
    idUndo := (remote.idUndo.filter (fun e =>
      ctxNewer (pullCtx1 r remote) e.ts e.peer)).foldl undoMaxMerge r.idUndo
    undolog := (remote.undolog.filter (fun e =>
      ctxNewer (pullCtx1 r remote) e.ts e.peer)).foldl undoMaxMerge r.undolog }

/-- `pull_from`: `_PULL_EXTERN`, the five conflict-resolution rules of
`_CONFLICT_RESOLUTION` in order, and `_MERGE_END`.  The remote is read-only
except for idempotent zero-ts context rows, so it is passed by value; `now`
is the wall-clock floor during the merge. -/
def pullFrom (r remote : Replica) (now : Int) : Replica :=
  mergeEnd
    (ruleE (ruleD (ruleC (ruleB (ruleA (pullImport r remote now) (pullEctx r remote)))
      (pullEctx r remote) now) (pullEctx r remote)))
    (pullEctx r remote)

/-! ### Materialization: the physical user table

`_create_pull` maintains the physical user tables directly: per table it runs
a DELETE of the rows whose undo counter turned odd (the unconditional
`_synql_delete_{tbl}` trigger then removes the rowmap entry, while the
guarded `_synql_delete_id_{tbl}` is suppressed by `is_merging`), assigns
local rowids to new active and redone rows, and finally executes one
`INSERT OR REPLACE INTO "{tbl}"` whose FROM clause is a seven-branch UNION
of changed row ids joined against the rowmap.  The column selectors pick,
per `(row, field)`, the `val` of the greatest `(ts, peer)` log entry with an
even undo length (`ORDER BY log.ts DESC, log.peer DESC LIMIT 1` over
entries with `log.ul%2 = 0`).  We embed the generated program for the
concrete schema `X(a int UNIQUE, b int)` used in the runs below: table id 0,
field 1 = column `a`, field 2 = column `b`, rowid implicit; `INSERT OR
REPLACE` first removes the physical rows that collide with the inserted one
on the rowid or on the UNIQUE column `a` (non-NULL equal values), as SQLite
does, without firing delete triggers (recursive triggers are disabled). -/

/-- Materialized value of replicated column `f` of row `row` — the merger's
column selector over `_synql_log_extra` with `log.ul%2 = 0`. -/
def colVal (r : Replica) (row : OpId) (f : Int) : Option SqlVal :=
  (r.log.foldl
    (fun best e =>
      if e.row_ts == row.ts && e.row_peer == row.peer && e.field == f &&
         opUl r e.ts e.peer % 2 == 0 then
        match best with
        | none => some e
        | some b =>
            if decide (b.ts < e.ts) || (b.ts == e.ts && decide (b.peer < e.peer)) then
              some e
            else some b
      else best)
    none).map LogEntry.val

/-- A physical row of table `X(a, b)`: the rowid and the two column values
(`none` models SQL `NULL` from an empty selector subquery). -/
structure PhysRow where
  rid : Int
  a : Option SqlVal
  b : Option SqlVal
  deriving DecidableEq, Repr

/-- A replica database: the shadow state, the physical content of the user
table `X`, and its rowmap `_synql_id_X`. -/
structure XState where
  rep : Replica
  rows : List PhysRow
  rowmap : List (Int × OpId)
  deriving DecidableEq, Repr

/-- A selector result as the SQL value it materializes (`NULL` when empty). -/
def toVal : Option SqlVal → SqlVal
  | some v => v
  | none => SqlVal.null

/-- SQLite auto-assigns `max(rowid) + 1` (1 on an empty table). -/
def nextRowid (l : List Int) : Int := l.foldl max 0 + 1

/-- `INSERT OR REPLACE INTO X`: remove the physical rows conflicting with
the new row on the rowid or on the UNIQUE column `a` (both values non-NULL
and equal), then insert.  Delete triggers do not fire on the removed rows
(recursive triggers are disabled). -/
def insertOrReplaceX (rows : List PhysRow) (nr : PhysRow) : List PhysRow :=
  rows.filter (fun row => !(row.rid == nr.rid || sqlEq (toVal row.a) (toVal nr.a))) ++ [nr]

/-- A user `INSERT INTO X(a, b) VALUES(a, b)` on a fresh rowid: the physical
insert followed by the `AFTER INSERT` trigger. -/
def userInsertX (s : XState) (now : Int) (a b : SqlVal) : XState :=
  let rid := nextRowid (s.rows.map PhysRow.rid)
  let res := insertTrigger s.rep s.rowmap 0 now rid [(1, a), (2, b)] []
  { rep := res.1, rows := s.rows ++ [⟨rid, some a, some b⟩], rowmap := res.2 }

/-- A user `DELETE FROM X WHERE rowid = rid`: the physical delete followed
by the `AFTER DELETE` trigger chain. -/
def userDeleteX (s : XState) (now rid : Int) : XState :=
  let res := deleteTrigger s.rep s.rowmap now rid
  { rep := res.1, rows := s.rows.filter (fun row => row.rid != rid), rowmap := res.2 }

/-- The `ul_ts`/`ul_peer` columns of an effective-view entry compared against
the local context: true iff the entry's own undolog counter exists and its
`(ts, peer)` exceeds the context (`log.ul_peer = ctx.peer AND
log.ul_ts > ctx.ts`; `NULL` columns from the LEFT JOIN compare false). -/
def ulNewer (r : Replica) (ts peer : Int) : Bool :=
  match undoLookup r.undolog ⟨ts, peer⟩ with
  | some u => ctxNewer r.ctx u.ts u.peer
  | none => false

/-- Branches 1–4 and 6 of the merger's changed-row UNION: unified effective
entries newer than the context (with even row undo), redone row ids, rows of
log and fklog entries whose undolog counter is newly odd, and fklog entries
whose `ON DELETE CASCADE` target is hidden. -/
def mergerChangedRows (r : Replica) : List OpId :=
  ((logEffective r).filterMap (fun e =>
    if ((opUl r e.ts e.peer % 2 == 0 && ctxNewer r.ctx e.ts e.peer) ||
        (opUl r e.ts e.peer % 2 == 1 && ulNewer r e.ts e.peer)) &&
       rowUl r ⟨e.row_ts, e.row_peer⟩ % 2 == 0 then
      some ⟨e.row_ts, e.row_peer⟩
    else none)) ++
  ((fklogEffective r).filterMap (fun e =>
    if ((opUl r e.ts e.peer % 2 == 0 && ctxNewer r.ctx e.ts e.peer) ||
        (opUl r e.ts e.peer % 2 == 1 && ulNewer r e.ts e.peer)) &&
       rowUl r ⟨e.row_ts, e.row_peer⟩ % 2 == 0 then
      some ⟨e.row_ts, e.row_peer⟩
    else none)) ++
  (r.idUndo.filterMap (fun u =>
    if ctxNewer r.ctx u.ts u.peer && !(u.ul % 2 == 1) then some u.obj else none)) ++
  (r.undolog.flatMap (fun u =>
    if ctxNewer r.ctx u.ts u.peer && u.ul % 2 == 1 then
      r.log.filterMap (fun e =>
        if e.ts == u.obj.ts && e.peer == u.obj.peer then
          some (⟨e.row_ts, e.row_peer⟩ : OpId)
        else none)
    else [])) ++
  (r.undolog.flatMap (fun u =>
    if ctxNewer r.ctx u.ts u.peer && u.ul % 2 == 1 then
      r.fklog.filterMap (fun e =>
        if e.ts == u.obj.ts && e.peer == u.obj.peer then
          some (⟨e.row_ts, e.row_peer⟩ : OpId)
        else none)
    else [])) ++
  (r.fklog.filterMap (fun fk =>
    match fk.foreign_row with
    | some f =>
        match undoLookup r.idUndo f with
        | some u =>
            if u.ul % 2 == 1 && fkOnDelete r fk.field == some 2 then
              some (⟨fk.row_ts, fk.row_peer⟩ : OpId)
            else none
        | none => none
    | none => none))

/-- UNION-style accumulation of `(row, field)` pairs. -/
def insertNewPair (s : List (OpId × Int)) (x : OpId × Int) : List (OpId × Int) :=
  if s.contains x then s else s ++ [x]

/-- Fuelled iteration on `(row, field)` pair sets. -/
def iteratePairs (f : List (OpId × Int) → List (OpId × Int)) :
    Nat → List (OpId × Int) → List (OpId × Int)
  | 0, s => s
  | n + 1, s => iteratePairs f n (f s)

/-- Base case of the merger's `_synql_cascade_refs` CTE: effective fklog
entries with `ON UPDATE CASCADE` (code 0) and visible rows whose target row
carries a unified-log entry newer than the context (either directly or
through its undolog counter); the cross join with both context tables
requires them non-empty. -/
def cascadeBase (r : Replica) (ectx : List (Int × Int)) : List (OpId × Int) :=
  if r.ctx.isEmpty || ectx.isEmpty then [] else
  (unifiedLogEffective r).flatMap (fun lg =>
    r.uniq.flatMap (fun uq =>
      (fklogEffective r).filterMap (fun fk =>
        if uq.1 == lg.field &&
           fk.foreign_row == some ⟨lg.row_ts, lg.row_peer⟩ &&
           fkForeignIndex r fk.field == some uq.2 &&
           fkOnUpdate r fk.field == some 0 &&
           rowUl r ⟨fk.row_ts, fk.row_peer⟩ % 2 == 0 &&
           (ctxNewer r.ctx lg.ts lg.peer || ulNewer r lg.ts lg.peer) then
          some (⟨fk.row_ts, fk.row_peer⟩, fk.field)
        else none)))

/-- Recursive case of `_synql_cascade_refs`: effective fklog entries with
`ON UPDATE CASCADE` and visible rows whose target is already in the set. -/
def cascadeStep (r : Replica) (s : List (OpId × Int)) : List (OpId × Int) :=
  (s.flatMap (fun tgt =>
    r.uniq.flatMap (fun uq =>
      (fklogEffective r).filterMap (fun src =>
        if uq.1 == tgt.2 &&
           src.foreign_row == some tgt.1 &&
           fkForeignIndex r src.field == some uq.2 &&
           fkOnUpdate r src.field == some 0 &&
           rowUl r ⟨src.row_ts, src.row_peer⟩ % 2 == 0 then
          some (⟨src.row_ts, src.row_peer⟩, src.field)
        else none)))).foldl insertNewPair s

/-- The full `_synql_cascade_refs` set (the fixpoint is reached within
`fklog.length + 1` rounds: every member names a distinct fklog entry). -/
def cascadeRefs (r : Replica) (ectx : List (Int × Int)) : List (OpId × Int) :=
  iteratePairs (cascadeStep r) (r.fklog.length + 1) ((cascadeBase r ectx).foldl insertNewPair [])

/-- UNION-style accumulation of `(rowid, row)` pairs. -/
def insertNewRid (s : List (Int × OpId)) (x : Int × OpId) : List (Int × OpId) :=
  if s.contains x then s else s ++ [x]

/-- The merger's FROM clause: the changed-row UNION (branches 1–6) joined
against the rowmap, unioned with the rowmap entries whose row id exceeds the
context (branch 7). -/
def mergerIdSet (r : Replica) (ectx : List (Int × Int)) (rowmap : List (Int × OpId)) :
    List (Int × OpId) :=
  let rows := mergerChangedRows r ++ (cascadeRefs r ectx).map Prod.fst
  let mapped := rowmap.filterMap (fun m => if rows.contains m.2 then some m else none)
  let newer := rowmap.filterMap (fun m =>
    if ctxNewer r.ctx m.2.ts m.2.peer then some m else none)
  (mapped ++ newer).foldl insertNewRid []

/-- The per-table block of `_create_pull` for table `X`, run between
`_CONFLICT_RESOLUTION` and `_MERGE_END`: delete the physical rows whose
undo counter is odd (the user-table delete trigger removes their rowmap
entries; the rowmap delete trigger is suppressed by `is_merging`), assign
local rowids to new active rows and (`OR IGNORE`) to redone rows, then
`INSERT OR REPLACE` the materialized tuple of every row id in the merger's
FROM clause. -/
def mergerApplyX (r : Replica) (ectx : List (Int × Int)) (rows0 : List PhysRow)
    (rowmap : List (Int × OpId)) : List PhysRow × List (Int × OpId) :=
  let delSet := rowmap.filterMap (fun m => if rowUl r m.2 % 2 == 1 then some m.1 else none)
  let deleted := rows0.filterMap (fun row =>
    if delSet.contains row.rid then some row.rid else none)
  let rows1 := rows0.filter (fun row => !(delSet.contains row.rid))
  let rowmap1 := rowmap.filter (fun m => !(deleted.contains m.1))
  let newActive := r.ids.filterMap (fun i =>
    if i.tbl == 0 && ctxNewer r.ctx i.row.ts i.row.peer && rowUl r i.row % 2 == 0 then
      some i.row
    else none)
  let rowmap2 := newActive.foldl
    (fun rm row => rm ++ [(nextRowid (rm.map Prod.fst), row)]) rowmap1
  let redone := r.idUndo.filterMap (fun u =>
    if ctxNewer r.ctx u.ts u.peer && u.ul % 2 == 0 &&
       r.ids.any (fun i => i.row == u.obj && i.tbl == 0) then
      some u.obj
    else none)
  let rowmap3 := redone.foldl
    (fun rm row =>
      if rm.any (fun m => m.2 == row) then rm
      else rm ++ [(nextRowid (rm.map Prod.fst), row)])
    rowmap2
  let idset := mergerIdSet r ectx rowmap3
  (idset.foldl (fun rows m => insertOrReplaceX rows ⟨m.1, colVal r m.2 1, colVal r m.2 2⟩)
    rows1, rowmap3)

/-- The complete `pull_from` on a replica database holding table `X`: the
shadow pipeline (P0, P1, rules A–E), the physical merging block of
`_create_pull`, and `_MERGE_END`.  The shadow component coincides with
`pullFrom` by construction. -/
def pullFromX (s : XState) (remote : Replica) (now : Int) : XState :=
  let r7 := ruleE (ruleD (ruleC (ruleB (ruleA (pullImport s.rep remote now)
    (pullEctx s.rep remote))) (pullEctx s.rep remote) now) (pullEctx s.rep remote))
  let pr := mergerApplyX r7 (pullEctx s.rep remote) s.rows s.rowmap
  { rep := mergeEnd r7 (pullEctx s.rep remote), rows := pr.1, rowmap := pr.2 }

/-- The value tuple of a physical row, ignoring the row handle. -/
def physRowVals (row : PhysRow) : Option SqlVal × Option SqlVal := (row.a, row.b)

/-! ### The effective views and the claimed row-undo restriction -/

/-- Modelled from the spec: the effective-view filter as the claim words it,
additionally restricted to entries whose row's `RowUndo` undo length is even.
For comparison with `isLatestVisible`, which the source actually implements. -/
def isLatestVisibleClaim (r : Replica) (e : LogEntry) : Bool :=
  opUl r e.ts e.peer % 2 == 0 && rowUl r ⟨e.row_ts, e.row_peer⟩ % 2 == 0 &&
    !(r.log.any (fun s =>
      s.row_ts == e.row_ts && s.row_peer == e.row_peer && s.field == e.field &&
      (decide (s.ts > e.ts) || (s.ts == e.ts && decide (s.peer > e.peer))) &&
      opUl r s.ts s.peer % 2 == 0 && rowUl r ⟨s.row_ts, s.row_peer⟩ % 2 == 0))

/-- Modelled from the spec: `_synql_log_effective` as the claim describes it. -/
def logEffectiveClaim (r : Replica) : List LogEntry :=
  r.log.filter (isLatestVisibleClaim r)



/-- A schema with a single table whose single foreign key declares
`ON DELETE SET DEFAULT`. -/
def setDefaultSchema : List SchemaTable :=
  [{ fks := [{ onDelete := some FkAction.setDefault, onUpdate := none }] }]

/-! ### A concrete two-replica run

Schema `X(a int UNIQUE, b int)` with logical clocks
(`Config(physical_clock=False)`): table id 0, field 1 = column `a`, field 2 =
column `b`, uniqueness index id 3 covering field `a` only.  Replica 1 is
initialized, cloned to replica 2 (`clone_to` copies the state and allocates
the new peer id, inserting a zero context row), then each replica inserts one
row: `(a = 1, b = 10)` on replica 1 and `(a = 1, b = 20)` on replica 2 —
scenario 1 of the specification, §8, with a non-key payload column. -/

/-- Replica 1 right after `init` (context row `(1, 0)` from `_allocate_id`). -/
def repA0 : Replica :=
  { peer := 1, ts := 0, physicalClock := false, ctx := [(1, 0)], ids := [], idUndo := [],
    log := [], fklog := [], undolog := [], uniq := [(1, 3)], fks := [] }

/-- `clone_to`: copy the source state, set the new peer id and insert its
zero context row. -/
def cloneTo (src : Replica) (newPeer : Int) : Replica :=
  { src with peer := newPeer, ctx := src.ctx ++ [(newPeer, 0)] }

/-- Replica 1 after `INSERT INTO X VALUES(1, 10)`. -/
def repA : Replica :=
  (insertTrigger repA0 [] 0 0 1 [(1, SqlVal.int 1), (2, SqlVal.int 10)] []).1

/-- Replica 2 (a clone of the initialized replica 1) after
`INSERT INTO X VALUES(1, 20)`. -/
def repB : Replica :=
  (insertTrigger (cloneTo repA0 2) [] 0 0 1 [(1, SqlVal.int 1), (2, SqlVal.int 20)] []).1

/-- Replica 1 after `pull_from(A, B)`: rule D undoes the greater row id
`(1, 2)` with `ul = 1`. -/
def repApull1 : Replica := pullFrom repA repB 0

/-- Replica 2 after `pull_from(B, A)` (with A in its post-pull state): rule D
re-fires on the already undone loser and sets `ul = 2`, redoing it. -/
def repBpull1 : Replica := pullFrom repB repApull1 0

/-- Replica 1 after inserting row `(1, 10)` and then deleting it: the row id
`(1, 1)` now has `RowUndo` undo length 1 (odd). -/
def repADel : Replica := (deleteTrigger repA [(1, ⟨1, 1⟩)] 0 1).1

/-! ### A physical-table run

The same schema `X(a int UNIQUE, b int)` with the physical user table and
rowmap carried along.  Replica 1 inserts `(a = 1, b = 10)` and then deletes
it; its clone replica 2 inserts `(a = 1, b = 20)`.  Then the convergence
sequence `pull_from(A, B); pull_from(B, A); pull_from(A, B)` runs with no
further user operations.  Rule D undoes the imported row `(1, 2)` on A at
the first pull (its concurrency filter being commented out, it fires even
though the colliding row is already deleted); on B the second pull imports
both odd undo counters and rule D re-fires, flipping the loser's counter to
the even value 2, so B materializes the row `(1, 20)`; the third pull flips
it back to 3 on A, whose table stays empty.  No `INSERT OR REPLACE`
collision arises at any point: every merger insert set in the run is empty
or a singleton. -/

/-- Replica 1's database right after `init`: empty table and rowmap. -/
def xA0 : XState := { rep := repA0, rows := [], rowmap := [] }

/-- Replica 1 after `INSERT INTO X VALUES(1, 10)` (rowid 1). -/
def xInsA : XState := userInsertX xA0 0 (SqlVal.int 1) (SqlVal.int 10)

/-- Replica 1 after `DELETE FROM X WHERE rowid = 1`: the table is empty and
the row id `(1, 1)` has undo length 1. -/
def xDelA : XState := userDeleteX xInsA 0 1

/-- Replica 2 (a clone of the initialized replica 1) after
`INSERT INTO X VALUES(1, 20)` (rowid 1). -/
def xB : XState :=
  userInsertX { rep := cloneTo repA0 2, rows := [], rowmap := [] } 0
    (SqlVal.int 1) (SqlVal.int 20)

/-- Replica 1 after `pull_from(A, B)`: rule D undoes the imported row
`(1, 2)` with `ul = 1`; nothing is materialized, the table stays empty. -/
def xApull1 : XState := pullFromX xDelA xB.rep 0

/-- Replica 2 after `pull_from(B, A)`: rule D re-fires on the imported odd
counter of `(1, 2)` and flips it to the even value 2, so the merger
re-materializes the row `(1, 20)`. -/
def xBpull1 : XState := pullFromX xB xApull1.rep 0

/-- Replica 1 after the final `pull_from(A, B)` of the convergence sequence:
rule D flips the counter of `(1, 2)` to 3 again and the table stays empty. -/
def xApull2 : XState := pullFromX xApull1 xBpull1.rep 0

/-! ### Steps of a replica -/

/-- One user-visible operation on a replica: a local INSERT, UPDATE or DELETE
through the trigger layer, or a `pull_from` of an arbitrary remote state. -/
inductive Step : Replica → Replica → Prop where
  | insert (r : Replica) (rm : List (Int × OpId)) (tbl now rowid : Int)
      (cols : List (Int × SqlVal)) (fks : List (Int × Option OpId)) :
      Step r (insertTrigger r rm tbl now rowid cols fks).1
  | update (r : Replica) (rm : List (Int × OpId)) (now rowid : Int)
      (changedCols : List (Int × SqlVal)) (changedFks : List (Int × Option OpId)) :
      Step r (updateTrigger r rm now rowid changedCols changedFks)
  | delete (r : Replica) (rm : List (Int × OpId)) (now rowid : Int) :
      Step r (deleteTrigger r rm now rowid).1
  | pull (r remote : Replica) (now : Int) :
      Step r (pullFrom r remote now)

/-- Replica-local clock invariant: `Local.ts` is non-negative, every context
timestamp is non-negative (schema constraint `CHECK (ts >= 0)`), and the
local peer's context entry never exceeds `Local.ts`. -/
@[reducible] def CtxInv (r : Replica) : Prop :=
  0 ≤ r.ts ∧ (∀ c ∈ r.ctx, 0 ≤ c.2) ∧ (∀ c ∈ r.ctx, c.1 = r.peer → c.2 ≤ r.ts)

/-- Claim C1: after `pull_from(A, B); pull_from(B, A); pull_from(A, B)` on
replicas with identical schemas, every materialized user table on A is
bag-equal to B's, ignoring row handles.  This fails on the code: in the
physical-table run above (A inserted and deleted `(1, 10)`, its clone B
inserted `(1, 20)` before the sequence), the uniqueness rule — whose
concurrency filter is a FIXME comment in `_CONFLICT_RESOLUTION` — re-fires
at every pull and flips the loser's undo parity, so after the sequence A's
physical table is empty while B's holds the single row `(1, 20)`: the value
bags differ (0 rows versus 1). -/
theorem convergence_fails_after_three_pulls :
    xApull2.rows = [] ∧
    xBpull1.rows = [⟨1, some (SqlVal.int 1), some (SqlVal.int 20)⟩] ∧
    ¬ (xApull2.rows.map physRowVals).Perm (xBpull1.rows.map physRowVals) := by
  decide

/-- Claim C3: `pull_from(A, B); pull_from(A, B)` with no intervening
operations leaves A unchanged after the second call.  This fails on the code:
re-pulling the same remote re-runs rule D, which observes the loser row
`(1, 2)` with undo length 1 and replaces it with undo length 2, making the
uniqueness loser visible again. -/
theorem second_pull_changes_state :
    (undoLookup repApull1.idUndo ⟨1, 2⟩).map UndoEntry.ul = some 1 ∧
    (undoLookup (pullFrom repApull1 repB 0).idUndo ⟨1, 2⟩).map UndoEntry.ul = some 2 ∧
    pullFrom repApull1 repB 0 ≠ repApull1 := by
  decide

/-- Claim C4: after a merge, for every uniqueness index and every pair of
rows whose effective values coincide on every field of that index, exactly
one of the two rows has an odd `RowUndo` undo length.  This fails on the
code: after `pull_from(B, A)` in the run above, rows `(1, 1)` and `(1, 2)`
both have the effective value 1 on field 1 — the only field of uniqueness
index 3 — yet both undo lengths are even (0 and 2), because rule D re-fired
on the already-undone loser and incremented its counter to an even value. -/
theorem uniqueness_winner_parity_fails :
    (1, 3) ∈ repBpull1.uniq ∧
    colVal repBpull1 ⟨1, 1⟩ 1 = some (SqlVal.int 1) ∧
    colVal repBpull1 ⟨1, 2⟩ 1 = some (SqlVal.int 1) ∧
    rowUl repBpull1 ⟨1, 1⟩ % 2 = 0 ∧
    rowUl repBpull1 ⟨1, 2⟩ % 2 = 0 := by
  decide

/-- Counterexample to claim C2: the effective view of the source does not
restrict by the row's `RowUndo` parity.  After deleting the row, its
`RowUndo` undo length is odd, yet `_synql_log_effective` still returns both
log entries of the row; the claimed view (restricted to even row undo
lengths) returns neither. -/
theorem log_effective_ignores_row_undo :
    rowUl repADel ⟨1, 1⟩ = 1 ∧
    logEffective repADel =
      [⟨1, 1, 1, 1, 1, SqlVal.int 1⟩, ⟨1, 1, 1, 1, 2, SqlVal.int 10⟩] ∧
    logEffectiveClaim repADel = [] ∧
    logEffective repADel ≠ logEffectiveClaim repADel := by
  decide

/-- Claim C2, amended: for every `(row, field)` the effective log view
returns exactly the log entry with the lexicographically greatest
`(ts, peer)` among the entries for that `(row, field)` whose own `OpUndo`
undo length is even (absent counters count as 0); on equal `ts` the larger
`peer` wins; the row's `RowUndo` parity is not consulted.  The same rule
defines the effective foreign-key log view. -/
theorem effective_views_are_lww_on_op_undo (r : Replica) :
    (∀ e : LogEntry, e ∈ logEffective r ↔
      e ∈ r.log ∧ opUl r e.ts e.peer % 2 = 0 ∧
        ∀ s ∈ r.log, s.row_ts = e.row_ts → s.row_peer = e.row_peer → s.field = e.field →
          opUl r s.ts s.peer % 2 = 0 → s.ts < e.ts ∨ (s.ts = e.ts ∧ s.peer ≤ e.peer)) ∧
    (∀ e : FkLogEntry, e ∈ fklogEffective r ↔
      e ∈ r.fklog ∧ opUl r e.ts e.peer % 2 = 0 ∧
        ∀ s ∈ r.fklog, s.row_ts = e.row_ts → s.row_peer = e.row_peer → s.field = e.field →
          opUl r s.ts s.peer % 2 = 0 → s.ts < e.ts ∨ (s.ts = e.ts ∧ s.peer ≤ e.peer)) := by
  constructor
  · intro e
    simp only [logEffective, List.mem_filter, isLatestVisible, Bool.and_eq_true,
      Bool.not_eq_true', List.any_eq_false, beq_iff_eq]
    constructor
    · rintro ⟨hmem, hul, hmax⟩
      refine ⟨hmem, hul, fun s hs h1 h2 h3 h4 => ?_⟩
      by_contra hcon
      exact hmax s hs ⟨⟨⟨⟨h1, h2⟩, h3⟩, by
        simp only [Bool.or_eq_true, decide_eq_true_eq, Bool.and_eq_true, beq_iff_eq]
        omega⟩, h4⟩
    · rintro ⟨hmem, hul, hmax⟩
      refine ⟨hmem, hul, fun s hs => ?_⟩
      rintro ⟨⟨⟨⟨h1, h2⟩, h3⟩, hD⟩, hE⟩
      simp only [Bool.or_eq_true, decide_eq_true_eq, Bool.and_eq_true, beq_iff_eq] at hD
      have := hmax s hs h1 h2 h3 hE
      omega
  · intro e
    simp only [fklogEffective, List.mem_filter, isLatestVisibleFk, Bool.and_eq_true,
      Bool.not_eq_true', List.any_eq_false, beq_iff_eq]
    constructor
    · rintro ⟨hmem, hul, hmax⟩
      refine ⟨hmem, hul, fun s hs h1 h2 h3 h4 => ?_⟩
      by_contra hcon
      exact hmax s hs ⟨⟨⟨⟨h1, h2⟩, h3⟩, by
        simp only [Bool.or_eq_true, decide_eq_true_eq, Bool.and_eq_true, beq_iff_eq]
        omega⟩, h4⟩
    · rintro ⟨hmem, hul, hmax⟩
      refine ⟨hmem, hul, fun s hs => ?_⟩
      rintro ⟨⟨⟨⟨h1, h2⟩, h3⟩, hD⟩, hE⟩
      simp only [Bool.or_eq_true, decide_eq_true_eq, Bool.and_eq_true, beq_iff_eq] at hD
      have := hmax s hs h1 h2 h3 hE
      omega

/-! ### Clock unit and monotonicity -/

/-- Claim C5: every clock bump sets `Local.ts` to
`max(Local.ts + 1, wall-clock in nanoseconds)` in physical mode and to
`Local.ts + 1` in logical mode, and is strictly increasing.  The code is
strictly increasing and has the claimed `max` shape, but its wall-clock
expression multiplies seconds by 10^6 — microseconds, not the nanoseconds
announced by the claim and by the comment inside `_synql_local_clock`: one
second after the epoch the code's floor is 10^6 while a nanosecond floor
would be 10^9. -/
theorem clock_bump_uses_microseconds :
    (∀ physical ts s, ts < bumpTs physical ts (wallClockFloor s)) ∧
    (∀ ts s, bumpTs true ts (wallClockFloor s) = max (ts + 1) (s * 1000000)) ∧
    (∀ ts s, bumpTs false ts (wallClockFloor s) = ts + 1) ∧
    bumpTs true 0 (wallClockFloor 1) = 1000000 ∧
    bumpTs true 0 (nanosSinceEpoch 1) = 1000000000 ∧
    wallClockFloor 1 ≠ nanosSinceEpoch 1 := by
  refine ⟨fun physical ts s => ?_, fun ts s => rfl, fun ts s => rfl, by decide, by decide,
    by decide⟩
  unfold bumpTs
  split <;> omega

/-! ### Error handling of `init` on `SET DEFAULT` -/

/-- Counterexample to claim C6: on a `SET DEFAULT` schema, `init` raises the
unsupported-schema error, but not before its first `executescript` has
installed (and committed) the shadow relations, so the database is not
"exactly as it was before the call". -/
theorem init_set_default_leaves_shadow_tables :
    init ⟨false, false, false⟩ setDefaultSchema false =
      Except.error ⟨true, false, false⟩ ∧
    (⟨true, false, false⟩ : InitDb) ≠ ⟨false, false, false⟩ :=
  ⟨rfl, by decide⟩

/-- Claim C6, amended: when the user schema declares a `SET DEFAULT`
referential action, `init` raises the unsupported-schema error; the failed
call leaves exactly the schema-independent shadow relations installed (the
first `executescript` commits before the trigger generation runs), and
installs no triggers and allocates no peer id. -/
theorem init_set_default_error_state (db : InitDb) (tables : List SchemaTable)
    (c : Bool) (t : SchemaTable) (f : SchemaFk) (ht : t ∈ tables) (hf : f ∈ t.fks)
    (hsd : f.onDelete = some FkAction.setDefault ∨ f.onUpdate = some FkAction.setDefault) :
    init db tables c = Except.error { db with shadowInstalled := true } := by
  have hbad : synqlTriggers tables c = Except.error
      "Synql does not support ON DELETE/UPDATE SET DEFAULT" := by
    rw [synqlTriggers, if_pos]
    rw [List.any_eq_true]
    refine ⟨t, ht, ?_⟩
    rw [List.any_eq_true]
    refine ⟨f, hf, ?_⟩
    rcases hsd with h | h <;> rw [h] <;> simp [normalizeFkAction, Except.isOk, Except.toBool]
  rw [init, hbad]

/-- Witness for the amended claim C6 at the concrete `SET DEFAULT` schema. -/
theorem init_set_default_error_state_witness :
    init ⟨false, false, false⟩ setDefaultSchema false =
      Except.error { shadowInstalled := true, triggersInstalled := false,
                     peerAllocated := false } :=
  init_set_default_error_state ⟨false, false, false⟩ setDefaultSchema false
    { fks := [{ onDelete := some FkAction.setDefault, onUpdate := none }] }
    { onDelete := some FkAction.setDefault, onUpdate := none }
    (by decide) (by decide) (Or.inl rfl)

/-! ### Peer-id allocation -/

/-- Counterexample to claim C8: `random() >> 16` is an arithmetic shift of a
signed 64-bit integer, so the allocated peer id can be negative — it is not a
value in `[0, 2^48)`. -/
theorem allocated_peer_can_be_negative :
    allocatedPeer (-65536) = -1 ∧
    ¬ (0 ≤ allocatedPeer (-65536) ∧ allocatedPeer (-65536) < 2 ^ 48) := by
  decide

/-- Claim C8, amended: the peer identifier allocated on `init` when none is
supplied carries 48 bits of entropy, but as a signed value: for any 64-bit
`random()` output it lies in `[-2^47, 2^47)`; operation ids `(ts, peer)`
formed by replicas with distinct peer ids are distinct. -/
theorem allocated_peer_range (rand : Int) (h1 : -(2 ^ 63) ≤ rand) (h2 : rand < 2 ^ 63) :
    -(2 ^ 47) ≤ allocatedPeer rand ∧ allocatedPeer rand < 2 ^ 47 ∧
      ∀ ts ts' p p' : Int, allocatedPeer rand = p → p ≠ p' →
        (OpId.mk ts p) ≠ (OpId.mk ts' p') := by
  refine ⟨?_, ?_, fun ts ts' p p' _ hne hcon => hne (congrArg OpId.peer hcon)⟩
  · rw [allocatedPeer, Int.le_ediv_iff_mul_le (by norm_num)]
    omega
  · rw [allocatedPeer, Int.ediv_lt_iff_lt_mul (by norm_num)]
    omega

/-- Witness for the amended claim C8 at a concrete `random()` output. -/
theorem allocated_peer_range_witness :
    -(2 ^ 47) ≤ allocatedPeer (-12345678901234) ∧
      allocatedPeer (-12345678901234) < 2 ^ 47 ∧
      ∀ ts ts' p p' : Int, allocatedPeer (-12345678901234) = p → p ≠ p' →
        (OpId.mk ts p) ≠ (OpId.mk ts' p') :=
  allocated_peer_range (-12345678901234) (by decide) (by decide)

/-! ### Association-list and clock helper lemmas -/

/-- Every clock bump strictly increases the timestamp. -/
theorem lt_bumpTs (physical : Bool) (ts now : Int) : ts < bumpTs physical ts now := by
  unfold bumpTs
  split <;> omega

/-- An `INSERT OR REPLACE` leaves the replaced entry under its key. -/
theorem undoLookup_undoReplace (t : List UndoEntry) (e : UndoEntry) :
    undoLookup (undoReplace t e) e.obj = some e := by
  unfold undoReplace
  split
  · rename_i h
    induction t with
    | nil => simp at h
    | cons x xs ih =>
      simp only [List.map_cons]
      by_cases hx : (x.obj == e.obj) = true
      · rw [if_pos hx]
        exact @List.find?_cons_of_pos _ (fun y => y.obj == e.obj) e _ (beq_self_eq_true e.obj)
      · rw [if_neg hx]
        rw [List.any_cons] at h
        rw [undoLookup] at ih
        rw [undoLookup, @List.find?_cons_of_neg _ (fun y => y.obj == e.obj) x _ hx]
        exact ih (by
          rcases Bool.or_eq_true_iff.mp h with h1 | h1
          · exact absurd h1 hx
          · exact h1)
  · rename_i h
    rw [undoLookup, List.find?_append]
    have hn : t.find? (fun x => x.obj == e.obj) = none := by
      rw [List.find?_eq_none]
      intro x hx hpx
      exact h (List.any_eq_true.mpr ⟨x, hx, hpx⟩)
    rw [hn, Option.none_or]
    exact @List.find?_cons_of_pos _ (fun y => y.obj == e.obj) e _ (beq_self_eq_true e.obj)

/-- The delete-trigger upsert records an incremented undo length under the
object's key, last-written by the given `(ts, peer)`. -/
theorem undoLookup_undoIncrement (t : List UndoEntry) (o : OpId) (ts p : Int) :
    ∃ u : UndoEntry, undoLookup (undoIncrement t o ts p) o = some u ∧
      u.obj = o ∧ u.ts = ts ∧ u.peer = p ∧
      u.ul = (match undoLookup t o with | some w => w.ul | none => 0) + 1 := by
  unfold undoIncrement
  cases h : undoLookup t o with
  | some w =>
      exact ⟨⟨o, w.ul + 1, ts, p⟩, undoLookup_undoReplace t ⟨o, w.ul + 1, ts, p⟩,
        rfl, rfl, rfl, rfl⟩
  | none =>
      refine ⟨⟨o, 1, ts, p⟩, ?_, rfl, rfl, rfl, rfl⟩
      rw [undoLookup, List.find?_append]
      have hn : t.find? (fun x => x.obj == o) = none := h
      rw [hn, Option.none_or]
      exact @List.find?_cons_of_pos UndoEntry (fun y => y.obj == o) ⟨o, 1, ts, p⟩ _
        (beq_self_eq_true o)

/-! ### Self-dated inserts and INSERT OR REPLACE -/

/-- Claim C9: for every row created by a user INSERT through the trigger
layer, the operation id equals the row id — the `_synql_id` row, the rowmap
entry, and every `_synql_log` and `_synql_fklog` entry written by the insert
all carry `(ts, peer) = (row_ts, row_peer)` equal to the freshly bumped local
clock value. -/
theorem insert_entries_self_dated (r : Replica) (rm : List (Int × OpId))
    (tbl now rowid : Int) (cols : List (Int × SqlVal)) (fks : List (Int × Option OpId)) :
    r.ts < (insertTrigger r rm tbl now rowid cols fks).1.ts ∧
    (insertTrigger r rm tbl now rowid cols fks).1.peer = r.peer ∧
    (insertTrigger r rm tbl now rowid cols fks).1.ids =
      r.ids ++ [⟨⟨(insertTrigger r rm tbl now rowid cols fks).1.ts, r.peer⟩, tbl⟩] ∧
    (insertTrigger r rm tbl now rowid cols fks).1.log =
      r.log ++ cols.map (fun c =>
        ⟨(insertTrigger r rm tbl now rowid cols fks).1.ts, r.peer,
         (insertTrigger r rm tbl now rowid cols fks).1.ts, r.peer, c.1, c.2⟩) ∧
    (insertTrigger r rm tbl now rowid cols fks).1.fklog =
      r.fklog ++ fks.map (fun f =>
        ⟨(insertTrigger r rm tbl now rowid cols fks).1.ts, r.peer,
         (insertTrigger r rm tbl now rowid cols fks).1.ts, r.peer, f.1, f.2⟩) ∧
    (insertTrigger r rm tbl now rowid cols fks).2.getLast? =
      some (rowid, ⟨(insertTrigger r rm tbl now rowid cols fks).1.ts, r.peer⟩) := by
  cases hfind : rm.find? (fun e => e.1 == rowid) with
  | none =>
      refine ⟨?_, ?_, ?_, ?_, ?_, ?_⟩ <;> simp only [insertTrigger, hfind, Replica.bump]
      · exact lt_bumpTs _ _ _
      · rw [List.getLast?_concat]
  | some m =>
      refine ⟨?_, ?_, ?_, ?_, ?_, ?_⟩ <;>
        simp only [insertTrigger, hfind, deleteIdTrigger, Replica.bump]
      · have h1 := lt_bumpTs r.physicalClock r.ts now
        have h2 := lt_bumpTs r.physicalClock (bumpTs r.physicalClock r.ts now) now
        omega
      · rw [List.getLast?_concat]

/-- Claim C10: a user INSERT whose row handle equals that of an existing
mapped (visible) row first deletes the old rowmap entry — incrementing the
old identity's `_synql_id_undo` counter to an odd value, dated strictly
before the new row — and then mints a fresh identity for the new row; the
old identity is not reused. -/
theorem insert_or_replace_retires_old_identity (r : Replica) (rm : List (Int × OpId))
    (tbl now rowid : Int) (cols : List (Int × SqlVal)) (fks : List (Int × Option OpId))
    (old : OpId)
    (hmap : rm.find? (fun e => e.1 == rowid) = some (rowid, old))
    (hvis : rowUl r old % 2 = 0)
    (hlocal : old.peer = r.peer → old.ts ≤ r.ts)
    (huniq : ∀ e ∈ rm, e.2 = old → e.1 = rowid) :
    ∃ u : UndoEntry,
      undoLookup (insertTrigger r rm tbl now rowid cols fks).1.idUndo old = some u ∧
      u.ul % 2 = 1 ∧
      u.ts < (insertTrigger r rm tbl now rowid cols fks).1.ts ∧
      OpId.mk (insertTrigger r rm tbl now rowid cols fks).1.ts r.peer ≠ old ∧
      (insertTrigger r rm tbl now rowid cols fks).2.getLast? =
        some (rowid, ⟨(insertTrigger r rm tbl now rowid cols fks).1.ts, r.peer⟩) ∧
      ∀ e ∈ (insertTrigger r rm tbl now rowid cols fks).2, e.2 ≠ old := by
  simp only [insertTrigger, hmap, deleteIdTrigger, Replica.bump]
  obtain ⟨u, hu, huobj, huts, hupeer, huul⟩ :=
    undoLookup_undoIncrement r.idUndo old (bumpTs r.physicalClock r.ts now) r.peer
  have h1 := lt_bumpTs r.physicalClock r.ts now
  have h2 := lt_bumpTs r.physicalClock (bumpTs r.physicalClock r.ts now) now
  have hulv : u.ul = rowUl r old + 1 := by rw [huul, rowUl]
  refine ⟨u, hu, by omega, by omega, ?_, by rw [List.getLast?_concat], ?_⟩
  · intro hcon
    have hts : old.ts = bumpTs r.physicalClock (bumpTs r.physicalClock r.ts now) now :=
      (congrArg OpId.ts hcon).symm
    have hp : old.peer = r.peer := (congrArg OpId.peer hcon).symm
    have := hlocal hp
    omega
  · intro e he hval
    rcases List.mem_append.mp he with hin | hin
    · have hne := List.of_mem_filter hin
      have : e.1 = rowid := huniq e (List.mem_of_mem_filter hin) hval
      simp [this] at hne
    · rcases List.mem_singleton.mp hin with rfl
      have hp : old.peer = r.peer := (congrArg OpId.peer hval.symm)
      have hts : old.ts = bumpTs r.physicalClock (bumpTs r.physicalClock r.ts now) now :=
        (congrArg OpId.ts hval.symm)
      have := hlocal hp
      omega

/-! ### Context lemmas for monotone progress -/

/-- Unfolding of a context lookup over a cons cell. -/
theorem ctxLookup_cons (c : Int × Int) (cs : List (Int × Int)) (q : Int) :
    ctxLookup (c :: cs) q = if c.1 == q then some c.2 else ctxLookup cs q := by
  unfold ctxLookup
  by_cases h : (c.1 == q) = true
  · rw [@List.find?_cons_of_pos _ (fun x => x.1 == q) c _ h, if_pos h]
    rfl
  · rw [@List.find?_cons_of_neg _ (fun x => x.1 == q) c _ h, if_neg h]

/-- Unfolding of a context update over a cons cell. -/
theorem ctxSet_cons (c : Int × Int) (cs : List (Int × Int)) (p v : Int) :
    ctxSet (c :: cs) p v = (if c.1 == p then (c.1, v) else c) :: ctxSet cs p v := rfl

/-- A successful context lookup exhibits a member row. -/
theorem ctxLookup_mem {ctx : List (Int × Int)} {p v : Int}
    (h : ctxLookup ctx p = some v) : (p, v) ∈ ctx := by
  induction ctx with
  | nil => simp [ctxLookup] at h
  | cons c cs ih =>
      rw [ctxLookup_cons] at h
      by_cases hc : (c.1 == p) = true
      · rw [if_pos hc] at h
        have h1 : c.1 = p := by simpa using hc
        have h2 : c.2 = v := by simpa using h
        rw [← h1, ← h2]
        exact List.mem_cons_self c cs
      · rw [if_neg hc] at h
        exact List.mem_cons_of_mem c (ih h)

/-- Appending rows does not disturb a successful lookup. -/
theorem ctxLookup_append_right {ctx : List (Int × Int)} (l : List (Int × Int)) {p v : Int}
    (h : ctxLookup ctx p = some v) : ctxLookup (ctx ++ l) p = some v := by
  unfold ctxLookup at h ⊢
  rw [List.find?_append]
  cases hf : ctx.find? (fun c => c.1 == p) with
  | none => rw [hf] at h; simp at h
  | some c =>
      rw [hf] at h
      exact h

/-- `ctxAddMissing` preserves successful lookups. -/
theorem ctxAddMissing_lookup {ps : List Int} {ctx : List (Int × Int)} {p v : Int}
    (h : ctxLookup ctx p = some v) : ctxLookup (ctxAddMissing ctx ps) p = some v := by
  induction ps generalizing ctx with
  | nil => exact h
  | cons q qs ih =>
      rw [ctxAddMissing]
      apply ih
      split
      · exact ctxLookup_append_right _ h
      · exact h

/-- A lookup in a singleton zero row yields zero. -/
theorem ctxLookup_singleton_zero {q p v : Int} (h : ctxLookup [(q, 0)] p = some v) :
    v = 0 := by
  rw [ctxLookup_cons] at h
  by_cases hq : ((q : Int) == p) = true
  · rw [if_pos hq] at h
    simpa using h.symm
  · rw [if_neg hq] at h
    simp [ctxLookup] at h

/-- A lookup in an extended context is an original row or an added zero. -/
theorem ctxAddMissing_lookup_inv {ps : List Int} {ctx : List (Int × Int)} {p v : Int}
    (h : ctxLookup (ctxAddMissing ctx ps) p = some v) :
    ctxLookup ctx p = some v ∨ v = 0 := by
  induction ps generalizing ctx with
  | nil => exact Or.inl h
  | cons q qs ih =>
      rw [ctxAddMissing] at h
      rcases ih h with h1 | h1
      · split at h1
        · unfold ctxLookup at h1
          rw [List.find?_append] at h1
          cases hf : ctx.find? (fun c => c.1 == p) with
          | some c =>
              left
              rw [hf] at h1
              unfold ctxLookup
              rw [hf]
              exact h1
          | none =>
              right
              rw [hf] at h1
              exact ctxLookup_singleton_zero h1
        · exact Or.inl h1
      · exact Or.inr h1

/-- A member of an extended context is an original row or an added zero row. -/
theorem mem_ctxAddMissing {ps : List Int} {ctx : List (Int × Int)} {c : Int × Int}
    (h : c ∈ ctxAddMissing ctx ps) : c ∈ ctx ∨ c.2 = 0 := by
  induction ps generalizing ctx with
  | nil => exact Or.inl h
  | cons q qs ih =>
      rw [ctxAddMissing] at h
      rcases ih h with h1 | h1
      · split at h1
        · rcases List.mem_append.mp h1 with h2 | h2
          · exact Or.inl h2
          · right
            rw [List.mem_singleton.mp h2]
        · exact Or.inl h1
      · exact Or.inr h1

/-- Lookup through a context update. -/
theorem ctxLookup_ctxSet (ctx : List (Int × Int)) (p v q : Int) :
    ctxLookup (ctxSet ctx p v) q =
      if q = p then (ctxLookup ctx q).map (fun _ => v) else ctxLookup ctx q := by
  induction ctx with
  | nil =>
      simp only [ctxSet, List.map_nil]
      split <;> rfl
  | cons c cs ih =>
      rw [ctxSet_cons, ctxLookup_cons, ctxLookup_cons]
      by_cases hcp : (c.1 == p) = true
      · have hc : c.1 = p := by simpa using hcp
        rw [if_pos hcp]
        by_cases hqp : q = p
        · have ht : (c.1 == q) = true := by simp [hc, hqp]
          rw [if_pos hqp, if_pos ht]
          simp only [ht, if_pos ht]
          rfl
        · have hf : (c.1 == q) = false := by
            simp only [beq_eq_false_iff_ne, ne_eq, hc]
            exact fun hh => hqp hh.symm
          rw [if_neg hqp]
          simp only [hf]
          rw [if_neg (by simp), if_neg (by simp)]
          rw [ih, if_neg hqp]
      · rw [if_neg hcp]
        by_cases hq : (c.1 == q) = true
        · have hc1 : c.1 = q := by simpa using hq
          have hqp : ¬ q = p := by
            intro hh
            exact hcp (by simp [hc1, hh])
          rw [if_pos hq, if_pos hq, if_neg hqp]
        · rw [if_neg hq, if_neg hq, ih]

/-- A member of a context update comes from an original row. -/
theorem mem_ctxSet {ctx : List (Int × Int)} {p v : Int} {c : Int × Int}
    (h : c ∈ ctxSet ctx p v) :
    ∃ c0 ∈ ctx, (c = c0 ∧ c0.1 ≠ p) ∨ (c = (c0.1, v) ∧ c0.1 = p) := by
  rcases List.mem_map.mp h with ⟨c0, hc0, heq⟩
  refine ⟨c0, hc0, ?_⟩
  by_cases hcp : (c0.1 == p) = true
  · right
    rw [if_pos hcp] at heq
    exact ⟨heq.symm, by simpa using hcp⟩
  · left
    rw [if_neg hcp] at heq
    exact ⟨heq.symm, by simpa using hcp⟩

/-- Any fold base is a lower bound of the running maximum. -/
theorem le_foldl_max (l : List (Int × Int)) (acc : Int) :
    acc ≤ l.foldl (fun a c => max a c.2) acc := by
  induction l generalizing acc with
  | nil => exact le_refl _
  | cons c cs ih => exact le_trans (le_max_left acc c.2) (ih (max acc c.2))

/-- A member timestamp is bounded by the running maximum from any base. -/
theorem mem_le_foldl_max {l : List (Int × Int)} {c : Int × Int} (h : c ∈ l) (acc : Int) :
    c.2 ≤ l.foldl (fun a x => max a x.2) acc := by
  induction l generalizing acc with
  | nil => cases h
  | cons x xs ih =>
      rcases List.mem_cons.mp h with rfl | h1
      · exact le_trans (le_max_right acc c.2) (le_foldl_max xs (max acc c.2))
      · exact ih h1 (max acc x.2)

/-- Every context timestamp is bounded by the context maximum. -/
theorem ctxMaxVal_mem_le {l : List (Int × Int)} {c : Int × Int} (h : c ∈ l) :
    c.2 ≤ ctxMaxVal l :=
  mem_le_foldl_max h 0

/-- The context maximum is non-negative. -/
theorem ctxMaxVal_nonneg (l : List (Int × Int)) : 0 ≤ ctxMaxVal l :=
  le_foldl_max l 0

/-- Lookup through the element-wise context merge of `_MERGE_END`. -/
theorem ctxLookup_mergeMax (ctx ectx : List (Int × Int)) (q : Int) :
    ctxLookup (ctx.map (fun c =>
      match ctxLookup ectx c.1 with
      | some t => if t > c.2 then (c.1, t) else c
      | none => c)) q =
    (ctxLookup ctx q).map (fun v =>
      match ctxLookup ectx q with
      | some t => if t > v then t else v
      | none => v) := by
  induction ctx with
  | nil => rfl
  | cons c cs ih =>
      have hfst : (match ctxLookup ectx c.1 with
          | some t => if t > c.2 then (c.1, t) else c
          | none => c).1 = c.1 := by
        cases ctxLookup ectx c.1 with
        | none => rfl
        | some t =>
            dsimp only
            split <;> rfl
      rw [List.map_cons, ctxLookup_cons, ctxLookup_cons, hfst]
      by_cases hq : (c.1 == q) = true
      · have hcq : c.1 = q := by simpa using hq
        rw [if_pos hq, if_pos hq]
        subst hcq
        cases hl : ctxLookup ectx c.1 with
        | none => simp [hl]
        | some t =>
            by_cases hgt : t > c.2
            · simp [hgt]
            · simp [hgt]
      · rw [if_neg hq, if_neg hq]
        exact ih

/-- A member of the element-wise context merge comes from an original row,
kept or raised to a remote timestamp. -/
theorem mem_mergeMax {ctx ectx : List (Int × Int)} {c : Int × Int}
    (h : c ∈ ctx.map (fun c =>
      match ctxLookup ectx c.1 with
      | some t => if t > c.2 then (c.1, t) else c
      | none => c)) :
    ∃ c0 ∈ ctx, c = c0 ∨
      (∃ t, ctxLookup ectx c0.1 = some t ∧ c = (c0.1, t) ∧ c0.2 < t) := by
  rcases List.mem_map.mp h with ⟨c0, hc0, heq⟩
  refine ⟨c0, hc0, ?_⟩
  cases hl : ctxLookup ectx c0.1 with
  | none =>
      left
      rw [hl] at heq
      exact heq.symm
  | some t =>
      rw [hl] at heq
      have heq2 : (if t > c0.2 then (c0.1, t) else c0) = c := heq
      by_cases hgt : t > c0.2
      · right
        refine ⟨t, rfl, ?_, hgt⟩
        rw [if_pos hgt] at heq2
        exact heq2.symm
      · left
        rw [if_neg hgt] at heq2
        exact heq2.symm

/-- Rule A does not touch the context, the peer id or the clock. -/
theorem ruleA_ctx (r : Replica) (ectx : List (Int × Int)) :
    (ruleA r ectx).ctx = r.ctx ∧ (ruleA r ectx).peer = r.peer ∧
      (ruleA r ectx).ts = r.ts :=
  ⟨rfl, rfl, rfl⟩

/-- Rule B preserves context, peer and clock. -/
theorem ruleB_ctx (r : Replica) :
    (ruleB r).ctx = r.ctx ∧ (ruleB r).peer = r.peer ∧ (ruleB r).ts = r.ts :=
  ⟨rfl, rfl, rfl⟩

/-- Rule C preserves context and peer, and only advances the clock. -/
theorem ruleC_props (r : Replica) (ectx : List (Int × Int)) (now : Int) :
    (ruleC r ectx now).ctx = r.ctx ∧ (ruleC r ectx now).peer = r.peer ∧
      r.ts ≤ (ruleC r ectx now).ts := by
  unfold ruleC
  generalize ruleCCandidates r ectx = l
  induction l generalizing r with
  | nil => exact ⟨rfl, rfl, le_refl _⟩
  | cons x xs ih =>
      rw [List.foldl_cons]
      rcases ih ({ r with
          ts := r.bump now
          fklog := r.fklog ++ [⟨r.bump now, r.peer, x.1.ts, x.1.peer, x.2, none⟩] }) with
        ⟨h1, h2, h3⟩
      exact ⟨h1, h2, le_trans (le_of_lt (lt_bumpTs _ _ _)) h3⟩

/-- Rule D preserves context, peer and clock. -/
theorem ruleD_ctx (r : Replica) (ectx : List (Int × Int)) :
    (ruleD r ectx).ctx = r.ctx ∧ (ruleD r ectx).peer = r.peer ∧
      (ruleD r ectx).ts = r.ts :=
  ⟨rfl, rfl, rfl⟩

/-- Rule E preserves context, peer and clock. -/
theorem ruleE_ctx (r : Replica) :
    (ruleE r).ctx = r.ctx ∧ (ruleE r).peer = r.peer ∧ (ruleE r).ts = r.ts :=
  ⟨rfl, rfl, rfl⟩

/-- `_MERGE_END` keeps context timestamps non-negative, keeps the local
peer's entry bounded by the clock, and never lowers a context entry,
provided every remote context value is bounded by the local clock. -/
theorem mergeEnd_mono (r : Replica) (ectx : List (Int × Int))
    (hts : 0 ≤ r.ts)
    (hnn : ∀ c ∈ r.ctx, 0 ≤ c.2)
    (hself : ∀ c ∈ r.ctx, c.1 = r.peer → c.2 ≤ r.ts)
    (hect : ∀ p t, ctxLookup ectx p = some t → t ≤ r.ts) :
    (∀ c ∈ (mergeEnd r ectx).ctx, 0 ≤ c.2) ∧
    (∀ c ∈ (mergeEnd r ectx).ctx, c.1 = r.peer → c.2 ≤ r.ts) ∧
    (∀ p v, ctxLookup r.ctx p = some v →
      ∃ v', ctxLookup (mergeEnd r ectx).ctx p = some v' ∧ v ≤ v') := by
  have hnn_m : ∀ c ∈ r.ctx.map (fun c =>
      match ctxLookup ectx c.1 with
      | some t => if t > c.2 then (c.1, t) else c
      | none => c), 0 ≤ c.2 := by
    intro c hc
    rcases mem_mergeMax hc with ⟨c0, hc0, rfl | ⟨t, hl, rfl, hgt⟩⟩
    · exact hnn c hc0
    · exact le_trans (hnn c0 hc0) (le_of_lt hgt)
  have hself_m : ∀ c ∈ r.ctx.map (fun c =>
      match ctxLookup ectx c.1 with
      | some t => if t > c.2 then (c.1, t) else c
      | none => c), c.1 = r.peer → c.2 ≤ r.ts := by
    intro c hc hp
    rcases mem_mergeMax hc with ⟨c0, hc0, rfl | ⟨t, hl, rfl, hgt⟩⟩
    · exact hself c hc0 hp
    · exact hect c0.1 t hl
  have hmono_m : ∀ p v, ctxLookup r.ctx p = some v →
      ∃ v', ctxLookup (r.ctx.map (fun c =>
        match ctxLookup ectx c.1 with
        | some t => if t > c.2 then (c.1, t) else c
        | none => c)) p = some v' ∧ v ≤ v' := by
    intro p v hv
    rw [ctxLookup_mergeMax, hv]
    cases hl : ctxLookup ectx p with
    | none => exact ⟨v, by simp, le_refl v⟩
    | some t =>
        by_cases hgt : t > v
        · exact ⟨t, by simp [hgt], le_of_lt hgt⟩
        · exact ⟨v, by simp [hgt], le_refl v⟩
  refine ⟨?_, ?_, ?_⟩
  · intro c hc
    simp only [mergeEnd] at hc
    split at hc
    · rcases mem_ctxSet hc with ⟨c0, hc0, ⟨rfl, hne⟩ | ⟨rfl, hp0⟩⟩
      · exact hnn_m c hc0
      · exact hts
    · exact hnn_m c hc
  · intro c hc hp
    simp only [mergeEnd] at hc
    split at hc
    · rcases mem_ctxSet hc with ⟨c0, hc0, ⟨rfl, hne⟩ | ⟨rfl, hp0⟩⟩
      · exact hself_m c hc0 hp
      · exact le_refl _
    · exact hself_m c hc hp
  · intro p v hv
    rcases hmono_m p v hv with ⟨v', hv', hle⟩
    simp only [mergeEnd]
    split
    · by_cases hp : p = r.peer
      · refine ⟨r.ts, ?_, hself (p, v) (ctxLookup_mem hv) hp⟩
        rw [ctxLookup_ctxSet, if_pos hp]
        rw [hp] at hv'
        rw [hp, hv']
        rfl
      · refine ⟨v', ?_, hle⟩
        rw [ctxLookup_ctxSet, if_neg hp]
        exact hv'
    · exact ⟨v', hv', hle⟩

/-- A clock bump followed by the context self-advance of the triggers
preserves the invariant parts and never lowers a context entry. -/
theorem bumpSet_mono (r : Replica) (ts1 : Int) (hts1 : r.ts < ts1)
    (hts : 0 ≤ r.ts) (hnn : ∀ c ∈ r.ctx, 0 ≤ c.2)
    (hself : ∀ c ∈ r.ctx, c.1 = r.peer → c.2 ≤ r.ts) :
    (0 ≤ ts1) ∧ (∀ c ∈ ctxSet r.ctx r.peer ts1, 0 ≤ c.2) ∧
    (∀ c ∈ ctxSet r.ctx r.peer ts1, c.1 = r.peer → c.2 ≤ ts1) ∧
    (∀ p v, ctxLookup r.ctx p = some v →
      ∃ v', ctxLookup (ctxSet r.ctx r.peer ts1) p = some v' ∧ v ≤ v') := by
  refine ⟨by omega, ?_, ?_, ?_⟩
  · intro c hc
    rcases mem_ctxSet hc with ⟨c0, hc0, ⟨rfl, hne⟩ | ⟨rfl, hp0⟩⟩
    · exact hnn c hc0
    · show (0 : Int) ≤ ts1
      omega
  · intro c hc hp
    rcases mem_ctxSet hc with ⟨c0, hc0, ⟨rfl, hne⟩ | ⟨rfl, hp0⟩⟩
    · exact absurd hp hne
    · exact le_refl _
  · intro p v hv
    rw [ctxLookup_ctxSet]
    by_cases hp : p = r.peer
    · rw [if_pos hp, hv]
      refine ⟨ts1, rfl, ?_⟩
      have hvr : v ≤ r.ts := hself (p, v) (ctxLookup_mem hv) hp
      omega
    · rw [if_neg hp]
      exact ⟨v, hv, le_refl v⟩

/-- The delete-id trigger preserves the clock invariant and never lowers a
context entry. -/
theorem deleteIdTrigger_mono (r : Replica) (now : Int) (oldRow : OpId)
    (hinv : CtxInv r) :
    CtxInv (deleteIdTrigger r now oldRow) ∧
    ∀ p v, ctxLookup r.ctx p = some v →
      ∃ v', ctxLookup (deleteIdTrigger r now oldRow).ctx p = some v' ∧ v ≤ v' := by
  obtain ⟨hts, hnn, hself⟩ := hinv
  obtain ⟨h0, h1, h2, h3⟩ := bumpSet_mono r (r.bump now) (lt_bumpTs _ _ _) hts hnn hself
  exact ⟨⟨h0, h1, h2⟩, h3⟩

/-- `pull_from` preserves the clock invariant and never lowers a context
entry, for an arbitrary remote state. -/
theorem pullFrom_mono (r remote : Replica) (now : Int) (hinv : CtxInv r) :
    CtxInv (pullFrom r remote now) ∧
    ∀ p v, ctxLookup r.ctx p = some v →
      ∃ v', ctxLookup (pullFrom r remote now).ctx p = some v' ∧ v ≤ v' := by
  obtain ⟨hts, hnn, hself⟩ := hinv
  have ht0 : r.ts ≤ pullT0 r remote := by
    unfold pullT0
    split
    · exact le_refl _
    · have := le_max_left r.ts (ctxMaxVal remote.ctx)
      omega
  have hts1a : pullT0 r remote ≤ pullTs1 r remote now := by
    unfold pullTs1
    split
    · exact le_max_left _ _
    · exact le_refl _
  have hts1 : r.ts ≤ pullTs1 r remote now := le_trans ht0 hts1a
  have hremote : ∀ p t, ctxLookup remote.ctx p = some t → t < pullTs1 r remote now := by
    intro p t hl
    have hmem := ctxLookup_mem hl
    have hb : t ≤ ctxMaxVal remote.ctx := ctxMaxVal_mem_le hmem
    have hne : remote.ctx.isEmpty = false := by
      cases hcc : remote.ctx with
      | nil => rw [hcc] at hmem; cases hmem
      | cons a l => rfl
    have ht0v : pullT0 r remote = max r.ts (ctxMaxVal remote.ctx) + 1 := by
      unfold pullT0
      rw [hne]
      simp
    have hmx : ctxMaxVal remote.ctx ≤ max r.ts (ctxMaxVal remote.ctx) :=
      le_max_right _ _
    omega
  obtain ⟨hCc, hCp, hCt⟩ :=
    ruleC_props (ruleB (ruleA (pullImport r remote now) (pullEctx r remote)))
      (pullEctx r remote) now
  have hR7ctx : (ruleE (ruleD (ruleC (ruleB (ruleA (pullImport r remote now)
      (pullEctx r remote))) (pullEctx r remote) now) (pullEctx r remote))).ctx =
      pullCtx1 r remote := by
    show (ruleC (ruleB (ruleA (pullImport r remote now) (pullEctx r remote)))
      (pullEctx r remote) now).ctx = pullCtx1 r remote
    rw [hCc]
    rfl
  have hR7peer : (ruleE (ruleD (ruleC (ruleB (ruleA (pullImport r remote now)
      (pullEctx r remote))) (pullEctx r remote) now) (pullEctx r remote))).peer =
      r.peer := by
    show (ruleC (ruleB (ruleA (pullImport r remote now) (pullEctx r remote)))
      (pullEctx r remote) now).peer = r.peer
    rw [hCp]
    rfl
  have hR7ts : pullTs1 r remote now ≤ (ruleE (ruleD (ruleC (ruleB (ruleA
      (pullImport r remote now) (pullEctx r remote))) (pullEctx r remote) now)
      (pullEctx r remote))).ts := hCt
  have hmain := mergeEnd_mono
    (ruleE (ruleD (ruleC (ruleB (ruleA (pullImport r remote now) (pullEctx r remote)))
      (pullEctx r remote) now) (pullEctx r remote)))
    (pullEctx r remote)
    (le_trans (le_trans hts hts1) hR7ts)
    (by
      intro c hc
      rw [hR7ctx] at hc
      rcases mem_ctxAddMissing hc with h1 | h1
      · exact hnn c h1
      · omega)
    (by
      intro c hc hp
      rw [hR7ctx] at hc
      rw [hR7peer] at hp
      rcases mem_ctxAddMissing hc with h1 | h1
      · exact le_trans (hself c h1 hp) (le_trans hts1 hR7ts)
      · rw [h1]
        exact le_trans (le_trans hts hts1) hR7ts)
    (by
      intro p t hl
      rcases ctxAddMissing_lookup_inv hl with h1 | h1
      · exact le_trans (le_of_lt (hremote p t h1)) hR7ts
      · rw [h1]
        exact le_trans (le_trans hts hts1) hR7ts)
  refine ⟨⟨le_trans (le_trans hts hts1) hR7ts, hmain.1, ?_⟩, ?_⟩
  · intro c hc hp
    rw [show (pullFrom r remote now).peer = r.peer from hR7peer] at hp
    exact hmain.2.1 c hc (by rw [hR7peer]; exact hp)
  · intro p v hv
    have hv1 : ctxLookup (pullCtx1 r remote) p = some v := ctxAddMissing_lookup hv
    exact hmain.2.2 p v (by rw [hR7ctx]; exact hv1)

/-- Claim C7: for each peer `p`, the `_synql_context` entry `Context[p]` is
non-decreasing across every operation — every local INSERT, UPDATE or DELETE
through the trigger layer and every `pull_from` may only raise or preserve
it, never lower it.  The clock invariant `CtxInv` is itself preserved, so
the property extends to any sequence of operations. -/
theorem context_monotone (r r' : Replica) (h : Step r r') (hinv : CtxInv r) :
    CtxInv r' ∧ ∀ p v, ctxLookup r.ctx p = some v →
      ∃ v', ctxLookup r'.ctx p = some v' ∧ v ≤ v' := by
  obtain ⟨hts, hnn, hself⟩ := hinv
  cases h with
  | pull remote now => exact pullFrom_mono r remote now ⟨hts, hnn, hself⟩
  | insert rm tbl now rowid cols fks =>
      cases hfind : rm.find? (fun e => e.1 == rowid) with
      | none =>
          obtain ⟨h0, h1, h2, h3⟩ :=
            bumpSet_mono r (r.bump now) (lt_bumpTs _ _ _) hts hnn hself
          simp only [insertTrigger, hfind]
          exact ⟨⟨h0, h1, h2⟩, h3⟩
      | some m =>
          obtain ⟨hd1, hd2⟩ := deleteIdTrigger_mono r now m.2 ⟨hts, hnn, hself⟩
          obtain ⟨hts2, hnn2, hself2⟩ := hd1
          obtain ⟨h0, h1, h2, h3⟩ := bumpSet_mono (deleteIdTrigger r now m.2)
            ((deleteIdTrigger r now m.2).bump now) (lt_bumpTs _ _ _) hts2 hnn2 hself2
          simp only [insertTrigger, hfind]
          refine ⟨⟨h0, h1, h2⟩, ?_⟩
          intro p v hv
          rcases hd2 p v hv with ⟨v1, hv1, hle1⟩
          rcases h3 p v1 hv1 with ⟨v2, hv2, hle2⟩
          exact ⟨v2, hv2, le_trans hle1 hle2⟩
  | update rm now rowid changedCols changedFks =>
      obtain ⟨h0, h1, h2, h3⟩ :=
        bumpSet_mono r (r.bump now) (lt_bumpTs _ _ _) hts hnn hself
      cases hfind : rm.find? (fun e => e.1 == rowid) with
      | none =>
          simp only [updateTrigger, hfind]
          exact ⟨⟨h0, h1, h2⟩, h3⟩
      | some m =>
          simp only [updateTrigger, hfind]
          exact ⟨⟨h0, h1, h2⟩, h3⟩
  | delete rm now rowid =>
      cases hfind : rm.find? (fun e => e.1 == rowid) with
      | none =>
          simp only [deleteTrigger, hfind]
          exact ⟨⟨hts, hnn, hself⟩, fun p v hv => ⟨v, hv, le_refl v⟩⟩
      | some m =>
          simp only [deleteTrigger, hfind]
          exact deleteIdTrigger_mono r now m.2 ⟨hts, hnn, hself⟩

/-- Witness for claim C7 at a concrete step: replica 1 pulling from
replica 2. -/
theorem context_monotone_witness :
    CtxInv repA ∧ CtxInv (pullFrom repA repB 0) ∧
      ∃ v', ctxLookup (pullFrom repA repB 0).ctx 1 = some v' ∧ 1 ≤ v' := by
  have h := context_monotone repA (pullFrom repA repB 0) (Step.pull repA repB 0)
    (by decide)
  exact ⟨by decide, h.1, h.2 1 1 (by decide)⟩

/-- Witness for claim C10 at a concrete INSERT OR REPLACE: replica 1
re-inserts over the mapped row `(1, 1)`. -/
theorem insert_or_replace_retires_old_identity_witness :
    ∃ u : UndoEntry,
      undoLookup (insertTrigger repA [(1, ⟨1, 1⟩)] 0 0 1 [] []).1.idUndo ⟨1, 1⟩ = some u ∧
      u.ul % 2 = 1 ∧
      u.ts < (insertTrigger repA [(1, ⟨1, 1⟩)] 0 0 1 [] []).1.ts ∧
      OpId.mk (insertTrigger repA [(1, ⟨1, 1⟩)] 0 0 1 [] []).1.ts repA.peer ≠ ⟨1, 1⟩ ∧
      (insertTrigger repA [(1, ⟨1, 1⟩)] 0 0 1 [] []).2.getLast? =
        some (1, ⟨(insertTrigger repA [(1, ⟨1, 1⟩)] 0 0 1 [] []).1.ts, repA.peer⟩) ∧
      ∀ e ∈ (insertTrigger repA [(1, ⟨1, 1⟩)] 0 0 1 [] []).2, e.2 ≠ (⟨1, 1⟩ : OpId) :=
  insert_or_replace_retires_old_identity repA [(1, ⟨1, 1⟩)] 0 0 1 [] [] ⟨1, 1⟩
    (by decide) (by decide) (by decide) (by decide)

end Synql
